import Mathlib

/-!
# oreore-server: message board protocol handler

A shallow embedding of the protocol handler and the buffered line extraction of
`src/oreore/server.cpp` and of `trim` from `src/oreore/message.cpp`.

Byte strings (`std::string`) are lists of characters.  The unsigned 64 bit
counter `next_message_id` is a natural number that is reduced modulo `2 ^ 64`
where the source increments it.  The outcome of the system calls `send` and
`epoll_ctl` is an explicit argument of the functions that perform them.
-/

namespace oreore

/-! ## Data model -/

/-- One posted message (`struct message`, message.hpp). -/
structure message where
  id : Nat
  text : List Char
  sender_ip : List Char
  reaction : List Char
deriving DecidableEq

/-- The fields of `class server` the protocol handler reads and writes. -/
structure server where
  messages : List message
  next_message_id : Nat
deriving DecidableEq

/-- The fields of `class client_connection` used by the handlers; `ip_string`
is the value of `get_ip_string()`. -/
structure client_connection where
  ip_string : List Char
  read_buffer : List Char
  write_buffer : List Char
  writing_registered : Bool
deriving DecidableEq

/-- The range of `uintmax_t`. -/
def UINTMAX_RANGE : Nat := 2 ^ 64

/-- The server built by the private constructor: no messages, counter 0. -/
def fresh_server : server := { messages := [], next_message_id := 0 }

/-! ## Library functions used by the source -/

/-- The classic locale `isspace`, used by `operator>>` to delimit tokens. -/
def isspace (c : Char) : Bool :=
  c = ' ' || c = '\t' || c = '\n' || c = '\x0b' || c = '\x0c' || c = '\r'

/-- Formatted extraction `iss >> token`: skip leading whitespace, then read up
to the next whitespace.  Returns the token and the unread rest of the stream.
When nothing can be read the token keeps its initial empty value. -/
def extract_token (iss : List Char) : List Char × List Char :=
  let rest := iss.dropWhile isspace
  (rest.takeWhile (fun c => !isspace c), rest.dropWhile (fun c => !isspace c))

/-- Decimal rendering `std::to_string(uintmax_t)` and `ostream << uintmax_t`. -/
def to_string (n : Nat) : List Char := Nat.toDigits 10 n

/-- Is the character one of `0` .. `9`. -/
def isdigit (c : Char) : Bool := decide (48 ≤ c.toNat) && decide (c.toNat ≤ 57)

/-- The value of a digit string read left to right. -/
def digits_value (ds : List Char) : Nat :=
  ds.foldl (fun acc c => 10 * acc + (c.toNat - 48)) 0

/-- Error codes of `std::from_chars`. -/
inductive errc where
  | ok
  | invalid_argument
  | result_out_of_range
deriving DecidableEq

/-- Result of `std::from_chars`: `ptr` as an offset from the start of the
input, the error code, and the content of the output argument, which is
written on success only (0 stands for the unwritten variable). -/
structure from_chars_result where
  ptr : Nat
  ec : errc
  value : Nat
deriving DecidableEq

/-- The call `std::from_chars(first, last, value)` for `uintmax_t` in base 10:
the longest leading run of digits is consumed, no sign and no whitespace is
accepted, and a value outside the 64 bit range is `result_out_of_range`. -/
def from_chars (input : List Char) : from_chars_result :=
  let digits := input.takeWhile isdigit
  if digits.isEmpty then
    { ptr := 0, ec := errc.invalid_argument, value := 0 }
  else if digits_value digits < UINTMAX_RANGE then
    { ptr := digits.length, ec := errc.ok, value := digits_value digits }
  else
    { ptr := digits.length, ec := errc.result_out_of_range, value := 0 }

/-- The value `std::string::npos`, the largest `size_t`. -/
def npos : Nat := 2 ^ 64 - 1

/-- The call `str.find_first_not_of(set)`: `none` is `npos`. -/
def find_first_not_of (str : List Char) (set : List Char) : Option Nat :=
  match str with
  | [] => none
  | c :: cs =>
    if set.contains c then (find_first_not_of cs set).map (fun i => i + 1)
    else some 0

/-- The call `str.find_last_not_of(set)`: `none` is `npos`. -/
def find_last_not_of (str : List Char) (set : List Char) : Option Nat :=
  match str with
  | [] => none
  | c :: cs =>
    match find_last_not_of cs set with
    | some i => some (i + 1)
    | none => if set.contains c then none else some 0

/-- The call `str.find(c)`: `none` is `npos`. -/
def find_char (str : List Char) (c : Char) : Option Nat :=
  match str with
  | [] => none
  | d :: ds => if d = c then some 0 else (find_char ds c).map (fun i => i + 1)

/-- The call `str.substr(pos, count)`. -/
def substr (str : List Char) (pos count : Nat) : List Char :=
  (str.drop pos).take count

/-! ## message.cpp -/

/-- The characters `trim` strips: `" \t\n\r\f\v"`. -/
def trim_set : List Char := [' ', '\t', '\n', '\r', '\x0c', '\x0b']

/-- The function `trim` of message.cpp. -/
def trim (str : List Char) : List Char :=
  match find_first_not_of str trim_set with
  | none => []
  | some first =>
    match find_last_not_of str trim_set with
    | none => substr str first ((npos - first + 1) % (npos + 1))
    | some last => substr str first (last - first + 1)

/-! ## server.cpp -/

/-- What one call of `send` on the non-blocking socket returned: a count of
accepted bytes, `-1` with `EAGAIN`/`EWOULDBLOCK`, or `-1` with another errno. -/
inductive send_outcome where
  | sent (bytes : Nat)
  | would_block
  | error
deriving DecidableEq

/-- The method `server::queue_data_for_send`.  `snd` is the outcome of the
opportunistic `send` (consulted only when the call is made) and `mod_ok` tells
whether `modify_descriptor` succeeds.  The result `none` means the connection
was closed by `close_client`. -/
def queue_data_for_send (client : client_connection) (data_to_send : List Char)
    (snd : send_outcome) (mod_ok : Bool) : Option client_connection :=
  let client1 := { client with write_buffer := client.write_buffer ++ data_to_send }
  let after_send : Option client_connection :=
    if !client1.writing_registered && !client1.write_buffer.isEmpty then
      match snd with
      | send_outcome.sent bytes =>
        some { client1 with write_buffer := client1.write_buffer.drop bytes }
      | send_outcome.would_block => some client1
      | send_outcome.error => none
    else some client1
  match after_send with
  | none => none
  | some client2 =>
    if !client2.write_buffer.isEmpty && !client2.writing_registered then
      if mod_ok then some { client2 with writing_registered := true } else none
    else some client2

/-- The iterator returned by `std::find_if` over `messages` with the lambda
that compares `m.id` with `message_id_val`, as an index; `none` is `end()`. -/
def find_if_id (messages : List message) (message_id_val : Nat) : Option Nat :=
  match messages with
  | [] => none
  | m :: ms =>
    if m.id = message_id_val then some 0
    else (find_if_id ms message_id_val).map (fun i => i + 1)

/-- The assignment `it_msg->reaction = command_token` at index `it_msg`. -/
def assign_reaction (messages : List message) (it_msg : Nat)
    (command_token : List Char) : List message :=
  match messages, it_msg with
  | [], _ => []
  | m :: ms, 0 => { m with reaction := command_token } :: ms
  | m :: ms, i + 1 => m :: assign_reaction ms i command_token

/-- One line of the `GET` listing, as streamed into `oss_resp`. -/
def format_message (msg_item : message) : List Char :=
  "ID: ".toList ++ to_string msg_item.id ++ ", From: ".toList ++ msg_item.sender_ip
    ++ ", Reaction: [".toList
    ++ (if msg_item.reaction.isEmpty then [] else msg_item.reaction)
    ++ "]".toList ++ ", Msg: \"".toList ++ msg_item.text ++ "\"\n".toList

/-- The body of `server::process_client_command` up to the final test of
`response_str`: the store after the command and the response string.  `ip` is
`client.get_ip_string()`.  The malformed `POST` branch, which in the source
queues its error and returns at once, yields that error as the response. -/
def command_response (srv : server) (ip : List Char) (command_line : List Char) :
    server × List Char :=
  let tok := extract_token command_line
  let command_token := tok.1
  let iss_cmd := tok.2
  if command_token = "POST".toList then
    if "POST ".toList.isPrefixOf command_line then
      let message_text := command_line.drop 5
      let current_id := srv.next_message_id
      ({ messages := srv.messages ++ [
           { id := current_id, text := message_text, sender_ip := ip, reaction := [] }],
         next_message_id := (srv.next_message_id + 1) % UINTMAX_RANGE },
       "OK: Message ".toList ++ to_string current_id ++ " posted.\n".toList)
    else
      (srv, "ERR: Invalid POST format. Usage: POST <message>\n".toList)
  else if command_token = "GET".toList then
    if srv.messages.isEmpty then
      (srv, "Stack is empty.\n".toList)
    else
      (srv, (srv.messages.map format_message).flatten)
  else if command_token = "HAPPY".toList ∨ command_token = "SAD".toList then
    let id_str_cmd := (extract_token iss_cmd).1
    if id_str_cmd.isEmpty then
      (srv, "ERR: Message ID not provided for ".toList ++ command_token ++ ".\n".toList)
    else
      let res := from_chars id_str_cmd
      let message_id_val := res.value
      if res.ec = errc.ok ∧ res.ptr = id_str_cmd.length then
        match find_if_id srv.messages message_id_val with
        | some it_msg =>
          ({ srv with messages := assign_reaction srv.messages it_msg command_token },
           "OK: Reaction set for message ".toList ++ to_string message_id_val
             ++ ".\n".toList)
        | none =>
          (srv, "ERR: Message ID ".toList ++ to_string message_id_val
             ++ " not found.\n".toList)
      else
        (srv, "ERR: Invalid message ID format \x27".toList ++ id_str_cmd
           ++ "\x27. Must be an integer.\n".toList)
  else if !command_token.isEmpty then
    (srv, "ERR: Unknown command \x27".toList ++ command_token ++ "\x27.\n".toList)
  else
    (srv, [])

/-- The method `server::process_client_command`: the store after the command
and the connection after the response was queued (`none` when queueing closed
it).  An empty response is not queued. -/
def process_client_command (srv : server) (client : client_connection)
    (command_line : List Char) (snd : send_outcome) (mod_ok : Bool) :
    server × Option client_connection :=
  let r := command_response srv client.ip_string command_line
  if !r.2.isEmpty then (r.1, queue_data_for_send client r.2 snd mod_ok)
  else (r.1, some client)

/-- What one pass of the line loop of `server::handle_client_read` did: the
store, the connection (`none` when closed) and the line handed to
`process_client_command`, if any. -/
structure line_step where
  srv : server
  client : Option client_connection
  dispatched : Option (List Char)
deriving DecidableEq

/-- One pass of the `while` loop of `server::handle_client_read` that looks for
a newline in `accumulated_data`; `none` when the loop condition is false. -/
def extract_line (srv : server) (client : client_connection)
    (snd : send_outcome) (mod_ok : Bool) : Option line_step :=
  match find_char client.read_buffer '\n' with
  | none => none
  | some newline_pos =>
    let command_line := substr client.read_buffer 0 newline_pos
    let client1 := { client with read_buffer := client.read_buffer.drop (newline_pos + 1) }
    let command_line := trim command_line
    if !command_line.isEmpty then
      let r := process_client_command srv client1 command_line snd mod_ok
      some { srv := r.1, client := r.2, dispatched := some command_line }
    else
      some { srv := srv, client := some client1, dispatched := none }

/-- Feeding a list of (sender address, command line) pairs to the handler in
order: the final store and the responses, one per command. -/
def dispatch_all (srv : server) (cmds : List (List Char × List Char)) :
    server × List (List Char) :=
  match cmds with
  | [] => (srv, [])
  | c :: cs =>
    let r := command_response srv c.1 c.2
    let rest := dispatch_all r.1 cs
    (rest.1, r.2 :: rest.2)

/-- The token is, in its entirety, an unsigned decimal integer that fits in
`uintmax_t`: not empty, digits only, value below `2 ^ 64`. -/
def is_uintmax_decimal (t : List Char) : Bool :=
  !t.isEmpty && t.all isdigit && decide (digits_value t < 2 ^ 64)

/-- The line takes the storing branch of `POST`: its first token is `POST` and
it starts with the five characters `POST `. -/
def is_successful_post (command_line : List Char) : Bool :=
  decide ((extract_token command_line).1 = "POST".toList)
    && "POST ".toList.isPrefixOf command_line

/-- The number of successful `POST` commands in a list of (sender address,
command line) pairs. -/
def successful_posts (cmds : List (List Char × List Char)) : Nat :=
  cmds.countP (fun c => is_successful_post c.2)

/-- A store the program can hold: `messages` is a `std::vector`, whose size is a
`size_t`, so it has fewer than `2 ^ 64` elements. -/
@[reducible] def vector_size_ok (srv : server) : Prop := srv.messages.length < 2 ^ 64

/-- A connection used to instantiate the theorems: peer `10.0.0.1`, empty
buffers, not registered for writing. -/
def sample_client : client_connection :=
  { ip_string := "10.0.0.1".toList, read_buffer := [], write_buffer := [],
    writing_registered := false }

/-- The store after `POST hello` and `POST world` from `10.0.0.1`. -/
def sample_server : server :=
  { messages := [
      { id := 0, text := "hello".toList, sender_ip := "10.0.0.1".toList, reaction := [] },
      { id := 1, text := "world".toList, sender_ip := "10.0.0.1".toList, reaction := [] }],
    next_message_id := 2 }

/-! ## Write path and readiness registration -/

/-- The event mask installed in epoll for a descriptor, as the three flags the
source uses. -/
structure epoll_events where
  epollin : Bool
  epollout : Bool
  epollet : Bool
deriving DecidableEq

/-- The mask `EPOLLIN | EPOLLET`. -/
def EPOLLIN_ET : epoll_events := { epollin := true, epollout := false, epollet := true }

/-- The mask `EPOLLIN | EPOLLOUT | EPOLLET`. -/
def EPOLLIN_OUT_ET : epoll_events := { epollin := true, epollout := true, epollet := true }

/-- The effect of `server::modify_descriptor` on the installed mask: `ok` tells
whether `epoll_ctl` with `EPOLL_CTL_MOD` succeeds; a failed call leaves the
mask as it was. -/
def modify_descriptor (installed new_events : epoll_events) (ok : Bool) : epoll_events :=
  if ok then new_events else installed

/-- A live connection together with the event mask installed for its
descriptor. -/
structure watched_connection where
  client : client_connection
  installed : epoll_events
deriving DecidableEq

/-- The method `server::queue_data_for_send` with the installed mask carried
along.  The result `none` means the connection was closed. -/
def queue_data_for_send_watched (w : watched_connection) (data_to_send : List Char)
    (snd : send_outcome) (mod_ok : Bool) : Option watched_connection :=
  let client1 := { w.client with write_buffer := w.client.write_buffer ++ data_to_send }
  let after_send : Option client_connection :=
    if !client1.writing_registered && !client1.write_buffer.isEmpty then
      match snd with
      | send_outcome.sent bytes =>
        some { client1 with write_buffer := client1.write_buffer.drop bytes }
      | send_outcome.would_block => some client1
      | send_outcome.error => none
    else some client1
  match after_send with
  | none => none
  | some client2 =>
    if !client2.write_buffer.isEmpty && !client2.writing_registered then
      if mod_ok then
        some { client := { client2 with writing_registered := true },
               installed := modify_descriptor w.installed EPOLLIN_OUT_ET mod_ok }
      else none
    else some { client := client2, installed := w.installed }

/-- The method `server::handle_client_write`.  `snd` is the outcome of `send`
and `mod_ok` tells whether `modify_descriptor` succeeds; the source does not
look at the result of `modify_descriptor` here.  The result `none` means the
connection was closed. -/
def handle_client_write (w : watched_connection) (snd : send_outcome) (mod_ok : Bool) :
    Option watched_connection :=
  if w.client.write_buffer.isEmpty then
    if w.client.writing_registered then
      some { client := { w.client with writing_registered := false },
             installed := modify_descriptor w.installed EPOLLIN_ET mod_ok }
    else some w
  else
    match snd with
    | send_outcome.sent bytes =>
      let client1 := { w.client with write_buffer := w.client.write_buffer.drop bytes }
      if client1.write_buffer.isEmpty && client1.writing_registered then
        some { client := { client1 with writing_registered := false },
               installed := modify_descriptor w.installed EPOLLIN_ET mod_ok }
      else some { client := client1, installed := w.installed }
    | send_outcome.would_block => some w
    | send_outcome.error => none

/-- The bytes taken from the head of the write buffer by the `send` call inside
`queue_data_for_send`; empty when `send` is not called, blocks or fails. -/
def bytes_sent_by_queue (client : client_connection) (data_to_send : List Char)
    (snd : send_outcome) : List Char :=
  let client1 := { client with write_buffer := client.write_buffer ++ data_to_send }
  if !client1.writing_registered && !client1.write_buffer.isEmpty then
    match snd with
    | send_outcome.sent bytes => client1.write_buffer.take bytes
    | send_outcome.would_block => []
    | send_outcome.error => []
  else []

/-- The bytes taken from the head of the write buffer by the `send` call inside
`handle_client_write`. -/
def bytes_sent_by_write (client : client_connection) (snd : send_outcome) : List Char :=
  if client.write_buffer.isEmpty then []
  else
    match snd with
    | send_outcome.sent bytes => client.write_buffer.take bytes
    | send_outcome.would_block => []
    | send_outcome.error => []

/-- The write interest invariant of the data model: the flag is set exactly
when the outbound buffer is not empty. -/
@[reducible] def write_interest_ok (client : client_connection) : Prop :=
  client.writing_registered = true ↔ client.write_buffer ≠ []

/-- The flag agrees with the installed mask: it is set exactly when the mask
contains `EPOLLOUT`. -/
@[reducible] def flag_matches_mask (w : watched_connection) : Prop :=
  w.client.writing_registered = true ↔ w.installed.epollout = true

/-! ## Accepting connections -/

/-- What one pass of the loop of `server::accept_new_connections` meets:
`accept` would block, `accept` fails with another errno, or `accept` returns
the descriptor `fd`, followed by the outcome of each set-up step
(`make_socket_non_blocking`, `ip_address::make` with the address string it
yields, `client_connection::make`, `register_descriptor`). -/
inductive accept_outcome where
  | would_block
  | error
  | descriptor (fd : Nat) (non_blocking_ok : Bool) (ip : Option (List Char))
      (make_ok : Bool) (register_ok : Bool)
deriving DecidableEq

/-- The call `client_connections.emplace(fd, conn)`: nothing is inserted when
the key is already present. -/
def emplace (table : List (Nat × client_connection)) (fd : Nat)
    (conn : client_connection) : List (Nat × client_connection) :=
  if table.any (fun entry => entry.1 = fd) then table else table ++ [(fd, conn)]

/-- The connection built by the private constructor of `client_connection`. -/
def new_connection (ip : List Char) : client_connection :=
  { ip_string := ip, read_buffer := [], write_buffer := [], writing_registered := false }

/-- The method `server::accept_new_connections` on the connection table, for
the outcomes of its successive passes; a list that runs out stands for
`accept` finding nothing more.  The result `none` is the exception thrown by
`conn_expected.value()` when `client_connection::make` has failed. -/
def accept_new_connections (table : List (Nat × client_connection))
    (outcomes : List accept_outcome) : Option (List (Nat × client_connection)) :=
  match outcomes with
  | [] => some table
  | accept_outcome.would_block :: _ => some table
  | accept_outcome.error :: _ => some table
  | accept_outcome.descriptor fd non_blocking_ok ip make_ok register_ok :: rest =>
    if !non_blocking_ok then accept_new_connections table rest
    else
      match ip with
      | none => accept_new_connections table rest
      | some ip_string =>
        if !make_ok then none
        else if !register_ok then accept_new_connections table rest
        else accept_new_connections (emplace table fd (new_connection ip_string)) rest

/-- The connection a pass of the accept loop inserts: present when `accept`
returned a descriptor and every set-up step succeeded. -/
def set_up_connection (o : accept_outcome) : Option (Nat × client_connection) :=
  match o with
  | accept_outcome.descriptor fd true (some ip_string) true true =>
    some (fd, new_connection ip_string)
  | _ => none

/-- The pass got a descriptor from `accept` and `client_connection::make` did
not fail on it. -/
def accepted_without_throw (o : accept_outcome) : Bool :=
  match o with
  | accept_outcome.descriptor _ true (some _) false _ => false
  | accept_outcome.descriptor _ _ _ _ _ => true
  | _ => false

/-! ## Read path -/

/-- The bytes taken by `send` while `process_client_command` answers a line. -/
def bytes_sent_by_command (srv : server) (client : client_connection)
    (command_line : List Char) (snd : send_outcome) : List Char :=
  let r := command_response srv client.ip_string command_line
  if !r.2.isEmpty then bytes_sent_by_queue client r.2 snd else []

/-- The state of the line loop of `server::handle_client_read`: the store, the
contents of the object behind the reference `client`, whether `close_client`
has erased the connection from the table, and two records kept for the
statements: the lines handed to `process_client_command` (oldest first) and
the bytes accepted by `send`. -/
structure read_state where
  srv : server
  client : client_connection
  closed : Bool
  dispatched : List (List Char)
  accepted : List Char
deriving DecidableEq

/-- One pass of the `while` loop at the end of `server::handle_client_read`;
`none` when the loop condition is false.  `env k` is the outcome of `send` and
of `modify_descriptor` met while the `k`-th dispatched line is answered.  The
source loop does not test whether the connection was closed while a line was
answered: it goes on with the same reference, so after a closure the pass is
evaluated on the last contents of the connection object.  Of these only the
read buffer is relied upon: what the erased object yields for its address and
its write buffer is not fixed by the source. -/
def line_pass (env : Nat → send_outcome × Bool) (st : read_state) : Option read_state :=
  match find_char st.client.read_buffer '\n' with
  | none => none
  | some newline_pos =>
    let command_line := substr st.client.read_buffer 0 newline_pos
    let client1 :=
      { st.client with read_buffer := st.client.read_buffer.drop (newline_pos + 1) }
    let command_line := trim command_line
    if !command_line.isEmpty then
      let io := env st.dispatched.length
      let r := process_client_command st.srv client1 command_line io.1 io.2
      some { srv := r.1,
             client := (match r.2 with
               | some client2 => client2
               | none => client1),
             closed := st.closed || r.2.isNone,
             dispatched := st.dispatched ++ [command_line],
             accepted := st.accepted
               ++ bytes_sent_by_command st.srv client1 command_line io.1 }
    else
      some { st with client := client1 }

/-- The `while` loop at the end of `server::handle_client_read`, run for at
most `fuel` passes. -/
def read_lines (fuel : Nat) (env : Nat → send_outcome × Bool) (st : read_state) :
    read_state :=
  match fuel with
  | 0 => st
  | fuel + 1 =>
    match line_pass env st with
    | none => st
    | some st2 => read_lines fuel env st2

/-- The line loop run to its end: every pass erases at least one character of
the read buffer, so its length bounds the number of passes. -/
def handle_lines (env : Nat → send_outcome × Bool) (st : read_state) : read_state :=
  read_lines st.client.read_buffer.length env st

/-- The outcome of `recv` that ends the drain loop of
`server::handle_client_read`: `-1` with `EAGAIN`/`EWOULDBLOCK`, a read of zero
bytes, or `-1` with another errno. -/
inductive recv_end where
  | would_block
  | peer_shutdown
  | error
deriving DecidableEq

/-- The drain loop while `recv` returns data: each chunk is appended to the
read buffer. -/
def drain_recv (client : client_connection) (chunks : List (List Char)) :
    client_connection :=
  match chunks with
  | [] => client
  | bytes :: rest =>
    drain_recv { client with read_buffer := client.read_buffer ++ bytes } rest

/-- The state in which the line loop starts. -/
def start_state (srv : server) (client : client_connection) : read_state :=
  { srv := srv, client := client, closed := false, dispatched := [], accepted := [] }

/-- The method `server::handle_client_read`: `chunks` are the successive
results of `recv` that carry data and `last` is the result that ends the
drain loop. -/
def handle_client_read (env : Nat → send_outcome × Bool) (srv : server)
    (client : client_connection) (chunks : List (List Char)) (last : recv_end) :
    read_state :=
  let client1 := drain_recv client chunks
  match last with
  | recv_end.would_block => handle_lines env (start_state srv client1)
  | recv_end.peer_shutdown => { start_state srv client1 with closed := true }
  | recv_end.error => { start_state srv client1 with closed := true }

/-- The complete lines of a byte string, without their newlines, and the text
after the last newline. -/
def split_lines (buffer : List Char) : List (List Char) × List Char :=
  match buffer with
  | [] => ([], [])
  | c :: cs =>
    let r := split_lines cs
    if c = '\n' then ([] :: r.1, r.2)
    else
      match r.1 with
      | [] => ([], c :: r.2)
      | l :: ls => ((c :: l) :: ls, r.2)

/-- The command lines a byte string carries: its complete lines, trimmed, the
empty ones left out. -/
def command_lines (buffer : List Char) : List (List Char) :=
  ((split_lines buffer).1.map trim).filter (fun l => !l.isEmpty)

/-- An outcome stream in which every `send` blocks and every
`modify_descriptor` succeeds. -/
def quiet_env : Nat → send_outcome × Bool := fun _ => (send_outcome.would_block, true)

/-- The table after emplacing a list of connections in order. -/
def emplace_all (table : List (Nat × client_connection))
    (conns : List (Nat × client_connection)) : List (Nat × client_connection) :=
  conns.foldl (fun t p => emplace t p.1 p.2) table

/-- The arrival of a chunk: `recv` data appended to the read buffer. -/
def append_chunk (st : read_state) (bytes : List Char) : read_state :=
  { st with client := { st.client with read_buffer := st.client.read_buffer ++ bytes } }

/-- The state after the pass of the line loop that takes the line `l` off the
read buffer and leaves `rest` in it. -/
def after_line (env : Nat → send_outcome × Bool) (st : read_state) (l rest : List Char) :
    read_state :=
  let client1 := { st.client with read_buffer := rest }
  if (trim l).isEmpty then { st with client := client1 }
  else
    let io := env st.dispatched.length
    let r := process_client_command st.srv client1 (trim l) io.1 io.2
    { srv := r.1,
      client := (match r.2 with
        | some client2 => client2
        | none => client1),
      closed := st.closed || r.2.isNone,
      dispatched := st.dispatched ++ [trim l],
      accepted := st.accepted ++ bytes_sent_by_command st.srv client1 (trim l) io.1 }

/-- The store after the handler answered the lines, all sent from `ip`. -/
def store_after (srv : server) (ip : List Char) (lines : List (List Char)) : server :=
  (dispatch_all srv (lines.map (fun l => (ip, l)))).1

/-- The responses to the lines, all sent from `ip`, one after the other. -/
def responses_to (srv : server) (ip : List Char) (lines : List (List Char)) : List Char :=
  (dispatch_all srv (lines.map (fun l => (ip, l)))).2.flatten

/-- An outcome stream in which every `send` takes three bytes and every
`modify_descriptor` succeeds. -/
def three_byte_env : Nat → send_outcome × Bool := fun _ => (send_outcome.sent 3, true)

/-- An outcome stream in which every `send` fails with an errno other than
`EAGAIN`. -/
def failing_env : Nat → send_outcome × Bool := fun _ => (send_outcome.error, true)

/-- A connection with two bytes pending, registered for writing, with
`EPOLLOUT` in its installed mask. -/
def sample_watched : watched_connection :=
  { client := { sample_client with write_buffer := "OK".toList, writing_registered := true },
    installed := EPOLLIN_OUT_ET }

/-- Dotted decimal notation of a 32 bit address in host order, as `inet_ntop`
writes it for `AF_INET`. -/
def dotted_decimal (raw : Nat) : List Char :=
  to_string (raw / 2 ^ 24 % 256) ++ ".".toList ++ to_string (raw / 2 ^ 16 % 256)
    ++ ".".toList ++ to_string (raw / 2 ^ 8 % 256) ++ ".".toList ++ to_string (raw % 256)

/-- The values `client_connection::get_ip_string` can return: the dotted
decimal string stored by `ip_address`, or `Unknown IP`. -/
def is_ip_string (s : List Char) : Prop :=
  s = "Unknown IP".toList ∨ ∃ raw : Nat, s = dotted_decimal raw

/-- A line as the line loop of `handle_client_read` dispatches it: the trimmed
form, not empty, of a text without newline. -/
def is_dispatched_line (line : List Char) : Prop :=
  line ≠ [] ∧ ∃ raw : List Char, '\n' ∉ raw ∧ line = trim raw

/-- One line of the `GET` listing without its final newline. -/
def listing_body (m : message) : List Char :=
  "ID: ".toList ++ to_string m.id ++ ", From: ".toList ++ m.sender_ip
    ++ ", Reaction: [".toList ++ m.reaction ++ "], Msg: \"".toList ++ m.text ++ "\"".toList

/-- What holds of every message stored through the line loop: the text is not
empty, and text, sender and reaction hold no newline. -/
def message_ok (m : message) : Prop :=
  m.text ≠ [] ∧ '\n' ∉ m.text ∧ '\n' ∉ m.sender_ip ∧ '\n' ∉ m.reaction

/-- The commands `POST hello` and `HAPPY 0` sent from `10.0.0.1`. -/
def sample_commands : List (List Char × List Char) :=
  [("10.0.0.1".toList, "POST hello".toList), ("10.0.0.1".toList, "HAPPY 0".toList)]

/-! ## Helper lemmas -/

/-- A non-empty response is queued on the connection, and the store is the one
computed by `command_response`. -/
theorem process_client_command_of_response {srv srv2 : server}
    {client : client_connection} {command_line resp : List Char}
    (snd : send_outcome) (mod_ok : Bool)
    (h : command_response srv client.ip_string command_line = (srv2, resp))
    (hne : resp ≠ []) :
    process_client_command srv client command_line snd mod_ok
      = (srv2, queue_data_for_send client resp snd mod_ok) := by
  cases resp with
  | nil => exact absurd rfl hne
  | cons c cs => simp [process_client_command, h]

/-- The search reaches `end()` when no stored message has the id. -/
theorem find_if_id_none {msgs : List message} {n : Nat}
    (h : ∀ m ∈ msgs, m.id ≠ n) : find_if_id msgs n = none := by
  induction msgs with
  | nil => rfl
  | cons m ms ih =>
    have h1 : m.id ≠ n := h m (List.mem_cons_self _ _)
    have h2 := ih (fun x hx => h x (List.mem_cons_of_mem _ hx))
    simp [find_if_id, h1, h2]

/-- When some stored message has the id, the search stops at the first one,
and the assignment through the iterator changes the reaction of that message
only. -/
theorem find_if_id_some {msgs : List message} {n : Nat}
    (h : ∃ m ∈ msgs, m.id = n) :
    ∃ pre m post, msgs = pre ++ m :: post ∧ m.id = n ∧ (∀ x ∈ pre, x.id ≠ n) ∧
      find_if_id msgs n = some pre.length ∧
      ∀ C, assign_reaction msgs pre.length C
        = pre ++ { m with reaction := C } :: post := by
  induction msgs with
  | nil => obtain ⟨m, hm, _⟩ := h; cases hm
  | cons a as ih =>
    by_cases ha : a.id = n
    · exact ⟨[], a, as, rfl, ha, by simp, by simp [find_if_id, ha], fun C => rfl⟩
    · have h2 : ∃ m ∈ as, m.id = n := by
        obtain ⟨m, hm, hmn⟩ := h
        rcases List.mem_cons.mp hm with rfl | hm2
        · exact absurd hmn ha
        · exact ⟨m, hm2, hmn⟩
      obtain ⟨pre, m, post, he, hmn, hpre, hf, hasg⟩ := ih h2
      refine ⟨a :: pre, m, post, by simp [he], hmn, ?_, ?_, ?_⟩
      · intro x hx
        rcases List.mem_cons.mp hx with rfl | hx2
        · exact ha
        · exact hpre x hx2
      · simp [find_if_id, ha, hf]
      · intro C
        simp [assign_reaction, hasg C]

/-- On a token that is a decimal integer in range, `from_chars` consumes the
whole token and yields its value. -/
theorem from_chars_of_decimal {t : List Char} (h : is_uintmax_decimal t = true) :
    from_chars t = { ptr := t.length, ec := errc.ok, value := digits_value t } := by
  simp only [is_uintmax_decimal, Bool.and_eq_true, decide_eq_true_eq, Bool.not_eq_true',
    List.all_eq_true] at h
  obtain ⟨⟨hne, hall⟩, hlt⟩ := h
  have htw : t.takeWhile isdigit = t := List.takeWhile_eq_self_iff.mpr hall
  have hlt2 : digits_value t < UINTMAX_RANGE := hlt
  simp [from_chars, htw, hne, hlt2]

/-- On any other token `from_chars` fails or stops before the end. -/
theorem from_chars_of_not_decimal {t : List Char} (h : is_uintmax_decimal t = false) :
    ¬ ((from_chars t).ec = errc.ok ∧ (from_chars t).ptr = t.length) := by
  intro ⟨hec, hptr⟩
  have hd : is_uintmax_decimal t = true := by
    unfold from_chars at hec hptr
    by_cases h1 : (t.takeWhile isdigit).isEmpty = true
    · simp [h1] at hec
    · by_cases h2 : digits_value (t.takeWhile isdigit) < UINTMAX_RANGE
      · simp only [h1, h2, if_true] at hptr
        simp at hptr
        have htw : t.takeWhile isdigit = t := by
          have := List.takeWhile_prefix isdigit (l := t)
          exact this.eq_of_length hptr
        have hall := List.takeWhile_eq_self_iff.mp htw
        rw [htw] at h1 h2
        simp only [is_uintmax_decimal, Bool.and_eq_true, decide_eq_true_eq,
          Bool.not_eq_true', List.all_eq_true]
        exact ⟨⟨by simpa using h1, hall⟩, h2⟩
      · simp [h1, h2] at hec
  rw [h] at hd
  cases hd


/-- The response to a line whose first token is `GET`. -/
theorem get_response {srv : server} {command_line : List Char} (ip : List Char)
    (htok : (extract_token command_line).1 = "GET".toList) :
    command_response srv ip command_line
      = (srv, if srv.messages = [] then "Stack is empty.\n".toList
              else (srv.messages.map format_message).flatten) := by
  unfold command_response
  simp only [htok]
  cases hm : srv.messages <;> simp

/-- The listing line of a message, with the reaction written out as it is. -/
theorem format_message_eq (m : message) :
    format_message m = "ID: ".toList ++ to_string m.id ++ ", From: ".toList ++ m.sender_ip
        ++ ", Reaction: [".toList ++ m.reaction ++ "], Msg: \"".toList
        ++ m.text ++ "\"\n".toList := by
  cases hm : m.reaction <;> simp [format_message, hm]

/-- The response to `HAPPY`/`SAD` with a well formed id that the search finds. -/
theorem reaction_response_found {srv : server} {command_line C : List Char} (ip : List Char)
    (hC : C = "HAPPY".toList ∨ C = "SAD".toList)
    (htok : (extract_token command_line).1 = C)
    (hdec : is_uintmax_decimal (extract_token (extract_token command_line).2).1 = true)
    {i : Nat}
    (hfind : find_if_id srv.messages
      (digits_value (extract_token (extract_token command_line).2).1) = some i) :
    command_response srv ip command_line
      = ({ srv with messages := assign_reaction srv.messages i C },
         "OK: Reaction set for message ".toList
           ++ to_string (digits_value (extract_token (extract_token command_line).2).1)
           ++ ".\n".toList) := by
  have hne : (extract_token (extract_token command_line).2).1.isEmpty = false := by
    simp only [is_uintmax_decimal, Bool.and_eq_true, Bool.not_eq_true'] at hdec
    exact hdec.1.1
  unfold command_response
  simp only [htok, from_chars_of_decimal hdec, hne, hfind]
  rcases hC with rfl | rfl <;> simp

/-- The store after `process_client_command` is the one computed by
`command_response`, whatever happens to the connection. -/
theorem process_client_command_store (srv : server) (client : client_connection)
    (command_line : List Char) (snd : send_outcome) (mod_ok : Bool) :
    (process_client_command srv client command_line snd mod_ok).1
      = (command_response srv client.ip_string command_line).1 := by
  simp only [process_client_command]
  split <;> rfl

/-- The response to `HAPPY`/`SAD` with a well formed id that the search does
not find. -/
theorem reaction_response_not_found {srv : server} {command_line C : List Char}
    (ip : List Char) (hC : C = "HAPPY".toList ∨ C = "SAD".toList)
    (htok : (extract_token command_line).1 = C)
    (hdec : is_uintmax_decimal (extract_token (extract_token command_line).2).1 = true)
    (hfind : find_if_id srv.messages
      (digits_value (extract_token (extract_token command_line).2).1) = none) :
    command_response srv ip command_line
      = (srv, "ERR: Message ID ".toList
           ++ to_string (digits_value (extract_token (extract_token command_line).2).1)
           ++ " not found.\n".toList) := by
  have hne : (extract_token (extract_token command_line).2).1.isEmpty = false := by
    simp only [is_uintmax_decimal, Bool.and_eq_true, Bool.not_eq_true'] at hdec
    exact hdec.1.1
  unfold command_response
  simp only [htok, from_chars_of_decimal hdec, hne, hfind]
  rcases hC with rfl | rfl <;> simp

/-- The response to `HAPPY`/`SAD` with a second token that is not a decimal
integer in range. -/
theorem reaction_response_bad_id {srv : server} {command_line C : List Char}
    (ip : List Char) (hC : C = "HAPPY".toList ∨ C = "SAD".toList)
    (htok : (extract_token command_line).1 = C)
    (hne : (extract_token (extract_token command_line).2).1 ≠ [])
    (hdec : is_uintmax_decimal (extract_token (extract_token command_line).2).1 = false) :
    command_response srv ip command_line
      = (srv, "ERR: Invalid message ID format \x27".toList
           ++ (extract_token (extract_token command_line).2).1
           ++ "\x27. Must be an integer.\n".toList) := by
  have hemp : (extract_token (extract_token command_line).2).1.isEmpty = false := by
    cases h : (extract_token (extract_token command_line).2).1 with
    | nil => exact absurd h hne
    | cons c cs => rfl
  unfold command_response
  simp only [htok, hemp, if_neg (from_chars_of_not_decimal hdec)]
  rcases hC with rfl | rfl <;> simp


/-- Assigning a reaction changes no id. -/
theorem assign_reaction_ids (msgs : List message) (i : Nat) (C : List Char) :
    (assign_reaction msgs i C).map (fun m => m.id) = msgs.map (fun m => m.id) := by
  induction msgs generalizing i with
  | nil => simp [assign_reaction]
  | cons m ms ih =>
    cases i with
    | zero => simp [assign_reaction]
    | succ j => simp [assign_reaction, ih j]

/-- The store and the response after a successful `POST`. -/
theorem post_response {command_line : List Char} (srv : server) (ip : List Char)
    (h : is_successful_post command_line = true) :
    command_response srv ip command_line
      = ({ messages := srv.messages ++ [
             { id := srv.next_message_id, text := command_line.drop 5,
               sender_ip := ip, reaction := [] }],
           next_message_id := (srv.next_message_id + 1) % 2 ^ 64 },
         "OK: Message ".toList ++ to_string srv.next_message_id ++ " posted.\n".toList) := by
  simp only [is_successful_post, Bool.and_eq_true, decide_eq_true_eq] at h
  unfold command_response
  simp only [h.1, h.2, if_true]
  simp [UINTMAX_RANGE]

/-- Any line that is not a successful `POST` keeps the counter and the ids of
the stored messages. -/
theorem not_post_keeps_ids {command_line : List Char} (srv : server) (ip : List Char)
    (h : is_successful_post command_line = false) :
    (command_response srv ip command_line).1.next_message_id = srv.next_message_id ∧
    (command_response srv ip command_line).1.messages.map (fun m => m.id)
      = srv.messages.map (fun m => m.id) := by
  unfold command_response
  simp only
  split
  · rename_i htok
    split
    · rename_i hpre
      have hs : is_successful_post command_line = true := by
        rw [is_successful_post, htok, hpre]
        rfl
      rw [h] at hs
      cases hs
    · exact ⟨rfl, rfl⟩
  · split
    · split <;> exact ⟨rfl, rfl⟩
    · split
      · split
        · exact ⟨rfl, rfl⟩
        · split
          · split
            · exact ⟨rfl, assign_reaction_ids _ _ _⟩
            · exact ⟨rfl, rfl⟩
          · exact ⟨rfl, rfl⟩
      · split <;> exact ⟨rfl, rfl⟩

/-- Dispatching a concatenation is dispatching the parts in turn. -/
theorem dispatch_all_append (srv : server) (a b : List (List Char × List Char)) :
    dispatch_all srv (a ++ b)
      = ((dispatch_all (dispatch_all srv a).1 b).1,
         (dispatch_all srv a).2 ++ (dispatch_all (dispatch_all srv a).1 b).2) := by
  induction a generalizing srv with
  | nil => simp [dispatch_all]
  | cons c cs ih => simp [dispatch_all, ih]

/-- One response is recorded per command. -/
theorem dispatch_all_length (srv : server) (cmds : List (List Char × List Char)) :
    (dispatch_all srv cmds).2.length = cmds.length := by
  induction cmds generalizing srv with
  | nil => simp [dispatch_all]
  | cons c cs ih => simp [dispatch_all, ih]

/-- Counting successful posts, one command at a time. -/
theorem successful_posts_cons (c : List Char × List Char)
    (cs : List (List Char × List Char)) :
    successful_posts (c :: cs)
      = successful_posts cs + (if is_successful_post c.2 = true then 1 else 0) := by
  simp [successful_posts, List.countP_cons]

/-- The counter after a list of commands is the start value plus the number
of successful posts, modulo `2 ^ 64`. -/
theorem dispatch_all_next (srv : server) (cmds : List (List Char × List Char))
    (h : srv.next_message_id < 2 ^ 64) :
    (dispatch_all srv cmds).1.next_message_id
      = (srv.next_message_id + successful_posts cmds) % 2 ^ 64 := by
  induction cmds generalizing srv with
  | nil =>
    simp only [dispatch_all, successful_posts, List.countP_nil, Nat.add_zero]
    exact (Nat.mod_eq_of_lt h).symm
  | cons c cs ih =>
    rw [successful_posts_cons]
    cases hp : is_successful_post c.2 with
    | true =>
      have hr := post_response srv c.1 hp
      have hlt : (srv.next_message_id + 1) % 2 ^ 64 < 2 ^ 64 := Nat.mod_lt _ (by decide)
      simp only [dispatch_all, hr, if_true]
      rw [ih _ hlt]
      simp only [Nat.add_mod, Nat.mod_mod]
      omega
    | false =>
      have hr := not_post_keeps_ids srv c.1 hp
      simp only [dispatch_all]
      rw [ih _ (by rw [hr.1]; exact h), hr.1]
      simp

/-- As long as the counter does not wrap, the ids in the store are the initial
ones followed by the consecutive values handed out by the posts. -/
theorem dispatch_all_ids (srv : server) (cmds : List (List Char × List Char))
    (h : srv.next_message_id + successful_posts cmds ≤ 2 ^ 64) :
    (dispatch_all srv cmds).1.messages.map (fun m => m.id)
      = srv.messages.map (fun m => m.id)
        ++ List.range' srv.next_message_id (successful_posts cmds) := by
  induction cmds generalizing srv with
  | nil => simp [dispatch_all, successful_posts]
  | cons c cs ih =>
    rw [successful_posts_cons] at h ⊢
    cases hp : is_successful_post c.2 with
    | true =>
      have hr := post_response srv c.1 hp
      simp only [hp, if_true] at h ⊢
      simp only [dispatch_all, hr]
      by_cases hz : successful_posts cs = 0
      · rw [ih _ (by simp only [hz]; exact Nat.le_of_lt (Nat.mod_lt _ (by decide)))]
        simp [hz]
      · have hlt : srv.next_message_id + 1 < 2 ^ 64 := by omega
        rw [ih _ (by simp only [Nat.mod_eq_of_lt hlt]; omega)]
        simp only [Nat.mod_eq_of_lt hlt]
        rw [List.range'_succ]
        simp
    | false =>
      have hr := not_post_keeps_ids srv c.1 hp
      simp only [hp] at h ⊢
      simp only [dispatch_all]
      rw [ih _ (by rw [hr.1]; simpa using h), hr.1, hr.2]
      simp

/-- Every successful post adds one message and no other command changes the
number of messages. -/
theorem dispatch_all_messages_length (srv : server) (cmds : List (List Char × List Char)) :
    (dispatch_all srv cmds).1.messages.length
      = srv.messages.length + successful_posts cmds := by
  induction cmds generalizing srv with
  | nil => simp [dispatch_all, successful_posts]
  | cons c cs ih =>
    rw [successful_posts_cons]
    simp only [dispatch_all]
    rw [ih]
    cases hp : is_successful_post c.2 with
    | true =>
      rw [post_response srv c.1 hp]
      simp
      omega
    | false =>
      have hlen := congrArg List.length (not_post_keeps_ids srv c.1 hp).2
      simp only [List.length_map] at hlen
      rw [hlen]
      simp

/-- The search for a character outside the set fails exactly on strings made
of characters of the set. -/
theorem find_first_not_of_eq_none {str set : List Char} :
    find_first_not_of str set = none ↔ ∀ c ∈ str, c ∈ set := by
  induction str with
  | nil => simp [find_first_not_of]
  | cons d ds ih =>
    by_cases hd : d ∈ set
    · simp [find_first_not_of, hd, ih]
    · simp [find_first_not_of, hd]

/-- The backward search fails on the same strings. -/
theorem find_last_not_of_eq_none {str set : List Char} :
    find_last_not_of str set = none ↔ ∀ c ∈ str, c ∈ set := by
  induction str with
  | nil => simp [find_last_not_of]
  | cons d ds ih =>
    cases hl : find_last_not_of ds set with
    | none =>
      have hds := ih.mp hl
      by_cases hd : d ∈ set
      · have hc : set.contains d = true := by simpa using hd
        simp only [find_last_not_of, hl, hc, if_true, true_iff]
        intro c hc
        rcases List.mem_cons.mp hc with rfl | hc2
        · exact hd
        · exact hds c hc2
      · simp [find_last_not_of, hl, hd]
    | some i =>
      have hds : ¬ ∀ c ∈ ds, c ∈ set := fun h => by
        rw [ih.mpr h] at hl
        cases hl
      simp only [find_last_not_of, hl]
      constructor
      · intro h
        cases h
      · intro h
        exact absurd (fun c hc => h c (List.mem_cons_of_mem _ hc)) hds

/-- A position found lies inside the string. -/
theorem find_first_not_of_lt {str set : List Char} {i : Nat}
    (h : find_first_not_of str set = some i) : i < str.length := by
  induction str generalizing i with
  | nil => simp [find_first_not_of] at h
  | cons d ds ih =>
    by_cases hd : d ∈ set
    · have hc : set.contains d = true := by simpa using hd
      simp only [find_first_not_of, hc, if_true] at h
      cases hf : find_first_not_of ds set with
      | none => simp [hf] at h
      | some j =>
        simp [hf] at h
        have := ih hf
        simp
        omega
    · simp [find_first_not_of, hd] at h
      simp [← h]

/-- The result of `trim` is empty exactly on strings made of the stripped
characters. -/
theorem trim_eq_nil_iff (str : List Char) :
    trim str = [] ↔ ∀ c ∈ str, c ∈ trim_set := by
  constructor
  · intro h
    cases hf : find_first_not_of str trim_set with
    | none => exact find_first_not_of_eq_none.mp hf
    | some first =>
      exfalso
      have hlt := find_first_not_of_lt hf
      cases hl : find_last_not_of str trim_set with
      | none =>
        have := find_first_not_of_eq_none.mpr (find_last_not_of_eq_none.mp hl)
        rw [this] at hf
        cases hf
      | some last =>
        simp only [trim, hf, hl, substr] at h
        have hlen := congrArg List.length h
        simp at hlen
        omega
  · intro h
    simp [trim, find_first_not_of_eq_none.mpr h]

/-- The first occurrence of `c` comes right after a prefix free of `c`. -/
theorem find_char_append {ws rest : List Char} {c : Char} (h : ∀ d ∈ ws, d ≠ c) :
    find_char (ws ++ c :: rest) c = some ws.length := by
  induction ws with
  | nil => simp [find_char]
  | cons d ds ih =>
    have hd : d ≠ c := h d (List.mem_cons_self _ _)
    have := ih (fun x hx => h x (List.mem_cons_of_mem _ hx))
    simp [find_char, hd, this]

/-! ## POST -/

/-- C2: a command line that starts with the five characters `POST ` has first
token `POST`; the handler appends one message at the end of the list, with the
line minus its first five characters as text, the connection address as
sender, an empty reaction and the previous `next_message_id` as id; the earlier
messages are kept, and `OK: Message <id> posted.` is queued as the response. -/
theorem post_appends_one_message (srv : server) (client : client_connection)
    (command_line : List Char) (snd : send_outcome) (mod_ok : Bool)
    (h : "POST ".toList <+: command_line) :
    (extract_token command_line).1 = "POST".toList ∧
    command_response srv client.ip_string command_line
      = ({ messages := srv.messages ++ [
             { id := srv.next_message_id, text := command_line.drop 5,
               sender_ip := client.ip_string, reaction := [] }],
           next_message_id := (srv.next_message_id + 1) % 2 ^ 64 },
         "OK: Message ".toList ++ to_string srv.next_message_id ++ " posted.\n".toList) ∧
    process_client_command srv client command_line snd mod_ok
      = ({ messages := srv.messages ++ [
             { id := srv.next_message_id, text := command_line.drop 5,
               sender_ip := client.ip_string, reaction := [] }],
           next_message_id := (srv.next_message_id + 1) % 2 ^ 64 },
         queue_data_for_send client
           ("OK: Message ".toList ++ to_string srv.next_message_id ++ " posted.\n".toList)
           snd mod_ok) := by
  obtain ⟨rest, rfl⟩ := h
  have hr : command_response srv client.ip_string ("POST ".toList ++ rest)
      = ({ messages := srv.messages ++ [
             { id := srv.next_message_id, text := rest,
               sender_ip := client.ip_string, reaction := [] }],
           next_message_id := (srv.next_message_id + 1) % 2 ^ 64 },
         "OK: Message ".toList ++ to_string srv.next_message_id ++ " posted.\n".toList) := by
    simp [command_response, extract_token, isspace, UINTMAX_RANGE]
  have hd : ("POST ".toList ++ rest).drop 5 = rest := by simp
  refine ⟨by simp [extract_token, isspace], ?_, ?_⟩
  · rw [hd]; exact hr
  · rw [hd]; exact process_client_command_of_response snd mod_ok hr (by simp)

/-- C2 at `POST  hi` (two spaces) on the store holding two messages: the text
stored is ` hi` with its leading space, under id 2. -/
theorem post_appends_one_message_witness :
    "POST ".toList <+: "POST  hi".toList ∧
    command_response sample_server sample_client.ip_string "POST  hi".toList
      = ({ messages := sample_server.messages ++ [
             { id := 2, text := " hi".toList, sender_ip := "10.0.0.1".toList,
               reaction := [] }],
           next_message_id := 3 },
         "OK: Message 2 posted.\n".toList) :=
  ⟨by decide,
   (post_appends_one_message sample_server sample_client "POST  hi".toList
      send_outcome.would_block true (by decide)).2.1⟩

/-- C3 as worded fails on the bare line `POST`: the response the code queues
has no full stop before its newline, so it differs from
`ERR: Invalid POST format. Usage: POST <message>.` followed by a newline. -/
theorem post_format_error_counterexample :
    (extract_token "POST".toList).1 = "POST".toList ∧
    ¬ ("POST ".toList <+: "POST".toList) ∧
    (command_response fresh_server sample_client.ip_string "POST".toList).2
      ≠ "ERR: Invalid POST format. Usage: POST <message>.\n".toList ∧
    (command_response fresh_server sample_client.ip_string "POST".toList).2
      = "ERR: Invalid POST format. Usage: POST <message>\n".toList := by
  decide

/-- C3 (amended): when the first token is `POST` but the line does not start
with the five characters `POST `, the handler queues
`ERR: Invalid POST format. Usage: POST <message>` and a newline (no full stop
after `<message>`) and leaves the message list and `next_message_id` as they
were. -/
theorem post_format_error (srv : server) (client : client_connection)
    (command_line : List Char) (snd : send_outcome) (mod_ok : Bool)
    (htok : (extract_token command_line).1 = "POST".toList)
    (hpre : ¬ ("POST ".toList <+: command_line)) :
    command_response srv client.ip_string command_line
      = (srv, "ERR: Invalid POST format. Usage: POST <message>\n".toList) ∧
    process_client_command srv client command_line snd mod_ok
      = (srv, queue_data_for_send client
           "ERR: Invalid POST format. Usage: POST <message>\n".toList snd mod_ok) := by
  have hp : ("POST ".toList).isPrefixOf command_line = false := by
    rw [Bool.eq_false_iff]
    intro hc
    exact hpre (List.isPrefixOf_iff_prefix.mp hc)
  have hr : command_response srv client.ip_string command_line
      = (srv, "ERR: Invalid POST format. Usage: POST <message>\n".toList) := by
    unfold command_response
    simp only [htok, hp, if_true]
    simp
  exact ⟨hr, process_client_command_of_response snd mod_ok hr (by simp)⟩

/-- C3 (amended) at the line `POST`, a tab, `hello` on the two message store. -/
theorem post_format_error_witness :
    (extract_token "POST\thello".toList).1 = "POST".toList ∧
    ¬ ("POST ".toList <+: "POST\thello".toList) ∧
    command_response sample_server sample_client.ip_string "POST\thello".toList
      = (sample_server, "ERR: Invalid POST format. Usage: POST <message>\n".toList) :=
  ⟨by decide, by decide,
   (post_format_error sample_server sample_client "POST\thello".toList
      send_outcome.would_block true (by decide) (by decide)).1⟩

/-! ## GET -/

/-- C4: when the first token is `GET`, the response is `Stack is empty.` and a
newline on an empty list, and otherwise the concatenation in list order of one
line `ID: <id>, From: <sender>, Reaction: [<reaction>], Msg: "<text>"` per
stored message; the message list and `next_message_id` are unchanged. -/
theorem get_lists_messages (srv : server) (client : client_connection)
    (command_line : List Char) (snd : send_outcome) (mod_ok : Bool)
    (htok : (extract_token command_line).1 = "GET".toList) :
    command_response srv client.ip_string command_line
      = (srv,
         if srv.messages = [] then "Stack is empty.\n".toList
         else (srv.messages.map (fun m =>
           "ID: ".toList ++ to_string m.id ++ ", From: ".toList ++ m.sender_ip
             ++ ", Reaction: [".toList ++ m.reaction ++ "], Msg: \"".toList
             ++ m.text ++ "\"\n".toList)).flatten) ∧
    (process_client_command srv client command_line snd mod_ok).1 = srv ∧
    (process_client_command srv client command_line snd mod_ok).2
      = queue_data_for_send client
          (if srv.messages = [] then "Stack is empty.\n".toList
           else (srv.messages.map (fun m =>
             "ID: ".toList ++ to_string m.id ++ ", From: ".toList ++ m.sender_ip
               ++ ", Reaction: [".toList ++ m.reaction ++ "], Msg: \"".toList
               ++ m.text ++ "\"\n".toList)).flatten) snd mod_ok := by
  have hfmt : format_message = (fun m =>
      "ID: ".toList ++ to_string m.id ++ ", From: ".toList ++ m.sender_ip
        ++ ", Reaction: [".toList ++ m.reaction ++ "], Msg: \"".toList
        ++ m.text ++ "\"\n".toList) := by
    funext m
    cases hm : m.reaction <;> simp [format_message, hm]
  have hr : command_response srv client.ip_string command_line
      = (srv,
         if srv.messages = [] then "Stack is empty.\n".toList
         else (srv.messages.map (fun m =>
           "ID: ".toList ++ to_string m.id ++ ", From: ".toList ++ m.sender_ip
             ++ ", Reaction: [".toList ++ m.reaction ++ "], Msg: \"".toList
             ++ m.text ++ "\"\n".toList)).flatten) := by
    rw [← hfmt]
    unfold command_response
    simp only [htok]
    cases hm : srv.messages <;> simp
  refine ⟨hr, ?_⟩
  have hne : (if srv.messages = [] then "Stack is empty.\n".toList
         else (srv.messages.map (fun m =>
           "ID: ".toList ++ to_string m.id ++ ", From: ".toList ++ m.sender_ip
             ++ ", Reaction: [".toList ++ m.reaction ++ "], Msg: \"".toList
             ++ m.text ++ "\"\n".toList)).flatten) ≠ [] := by
    cases hm : srv.messages <;> simp
  rw [process_client_command_of_response snd mod_ok hr hne]
  exact ⟨rfl, rfl⟩

/-- C4 at `GET` on the two message store: two lines, id 0 then id 1. -/
theorem get_lists_messages_witness :
    (extract_token "GET".toList).1 = "GET".toList ∧
    command_response sample_server sample_client.ip_string "GET".toList
      = (sample_server,
         ("ID: 0, From: 10.0.0.1, Reaction: [], Msg: \"hello\"\n"
           ++ "ID: 1, From: 10.0.0.1, Reaction: [], Msg: \"world\"\n").toList) :=
  ⟨by decide,
   (get_lists_messages sample_server sample_client "GET".toList
      send_outcome.would_block true (by decide)).1⟩

/-! ## HAPPY and SAD -/

/-- C5: for `C` one of `HAPPY`, `SAD`, a line with first token `C` and second
token `t` that is a decimal integer `n` in range, and a store holding a message
with id `n`: the store splits as `pre ++ m :: post` with `m` the first message
of id `n`; the handler replaces the reaction of `m` by `C`, keeps every other
field, every other message, the order and `next_message_id`, queues
`OK: Reaction set for message n.`, and a later `GET` lists `m` with
`Reaction: [C]`. -/
theorem reaction_sets_target_only (srv : server) (client : client_connection)
    (command_line C t : List Char) (n : Nat) (snd : send_outcome) (mod_ok : Bool)
    (hC : C = "HAPPY".toList ∨ C = "SAD".toList)
    (htok : (extract_token command_line).1 = C)
    (ht : (extract_token (extract_token command_line).2).1 = t)
    (hdec : is_uintmax_decimal t = true) (hn : digits_value t = n)
    (hid : ∃ m ∈ srv.messages, m.id = n) :
    ∃ pre m post, srv.messages = pre ++ m :: post ∧ m.id = n ∧ (∀ x ∈ pre, x.id ≠ n) ∧
      command_response srv client.ip_string command_line
        = ({ messages := pre ++ { m with reaction := C } :: post,
             next_message_id := srv.next_message_id },
           "OK: Reaction set for message ".toList ++ to_string n ++ ".\n".toList) ∧
      process_client_command srv client command_line snd mod_ok
        = ({ messages := pre ++ { m with reaction := C } :: post,
             next_message_id := srv.next_message_id },
           queue_data_for_send client
             ("OK: Reaction set for message ".toList ++ to_string n ++ ".\n".toList)
             snd mod_ok) ∧
      ∀ (client2 : client_connection) (line2 : List Char),
        (extract_token line2).1 = "GET".toList →
        (command_response
            { messages := pre ++ { m with reaction := C } :: post,
              next_message_id := srv.next_message_id } client2.ip_string line2).2
          = (pre.map format_message).flatten
            ++ ("ID: ".toList ++ to_string n ++ ", From: ".toList ++ m.sender_ip
                ++ ", Reaction: [".toList ++ C ++ "], Msg: \"".toList ++ m.text
                ++ "\"\n".toList)
            ++ (post.map format_message).flatten := by
  subst ht hn
  obtain ⟨pre, m, post, hsplit, hmn, hpre, hfind, hasg⟩ := find_if_id_some hid
  have hr := reaction_response_found client.ip_string hC htok hdec hfind
  rw [hasg C] at hr
  refine ⟨pre, m, post, hsplit, hmn, hpre, hr,
    process_client_command_of_response snd mod_ok hr (by simp), ?_⟩
  intro client2 line2 hget
  rw [get_response client2.ip_string hget]
  simp [format_message_eq, hmn]

/-- C5 at `HAPPY 0` on the two message store. -/
theorem reaction_sets_target_only_witness :
    ("HAPPY".toList = "HAPPY".toList ∨ "HAPPY".toList = "SAD".toList) ∧
    (extract_token "HAPPY 0".toList).1 = "HAPPY".toList ∧
    (extract_token (extract_token "HAPPY 0".toList).2).1 = "0".toList ∧
    is_uintmax_decimal "0".toList = true ∧ digits_value "0".toList = 0 ∧
    (∃ m ∈ sample_server.messages, m.id = 0) ∧
    ∃ pre m post, sample_server.messages = pre ++ m :: post ∧ m.id = 0 ∧
      (∀ x ∈ pre, x.id ≠ 0) ∧
      command_response sample_server sample_client.ip_string "HAPPY 0".toList
        = ({ messages := pre ++ { m with reaction := "HAPPY".toList } :: post,
             next_message_id := sample_server.next_message_id },
           "OK: Reaction set for message ".toList ++ to_string 0 ++ ".\n".toList) ∧
      process_client_command sample_server sample_client "HAPPY 0".toList
          send_outcome.would_block true
        = ({ messages := pre ++ { m with reaction := "HAPPY".toList } :: post,
             next_message_id := sample_server.next_message_id },
           queue_data_for_send sample_client
             ("OK: Reaction set for message ".toList ++ to_string 0 ++ ".\n".toList)
             send_outcome.would_block true) ∧
      ∀ (client2 : client_connection) (line2 : List Char),
        (extract_token line2).1 = "GET".toList →
        (command_response
            { messages := pre ++ { m with reaction := "HAPPY".toList } :: post,
              next_message_id := sample_server.next_message_id } client2.ip_string line2).2
          = (pre.map format_message).flatten
            ++ ("ID: ".toList ++ to_string 0 ++ ", From: ".toList ++ m.sender_ip
                ++ ", Reaction: [".toList ++ "HAPPY".toList ++ "], Msg: \"".toList ++ m.text
                ++ "\"\n".toList)
            ++ (post.map format_message).flatten :=
  ⟨by decide, by decide, by decide, by decide, by decide, by decide,
   reaction_sets_target_only sample_server sample_client "HAPPY 0".toList "HAPPY".toList
     "0".toList 0 send_outcome.would_block true (by decide) (by decide) (by decide)
     (by decide) (by decide) (by decide)⟩

/-- C6: for `C` one of `HAPPY`, `SAD`, a line with first token `C` and second
token a decimal integer `n` in range that is the id of no stored message: the
handler queues `ERR: Message ID n not found.` and leaves the store as it was. -/
theorem reaction_unknown_id (srv : server) (client : client_connection)
    (command_line C t : List Char) (n : Nat) (snd : send_outcome) (mod_ok : Bool)
    (hC : C = "HAPPY".toList ∨ C = "SAD".toList)
    (htok : (extract_token command_line).1 = C)
    (ht : (extract_token (extract_token command_line).2).1 = t)
    (hdec : is_uintmax_decimal t = true) (hn : digits_value t = n)
    (hid : ∀ m ∈ srv.messages, m.id ≠ n) :
    command_response srv client.ip_string command_line
      = (srv, "ERR: Message ID ".toList ++ to_string n ++ " not found.\n".toList) ∧
    process_client_command srv client command_line snd mod_ok
      = (srv, queue_data_for_send client
           ("ERR: Message ID ".toList ++ to_string n ++ " not found.\n".toList)
           snd mod_ok) := by
  subst ht hn
  have hr := reaction_response_not_found client.ip_string hC htok hdec (find_if_id_none hid)
  exact ⟨hr, process_client_command_of_response snd mod_ok hr (by simp)⟩

/-- C6 at `SAD 99` on the two message store. -/
theorem reaction_unknown_id_witness :
    ("SAD".toList = "HAPPY".toList ∨ "SAD".toList = "SAD".toList) ∧
    (extract_token "SAD 99".toList).1 = "SAD".toList ∧
    (extract_token (extract_token "SAD 99".toList).2).1 = "99".toList ∧
    is_uintmax_decimal "99".toList = true ∧ digits_value "99".toList = 99 ∧
    (∀ m ∈ sample_server.messages, m.id ≠ 99) ∧
    command_response sample_server sample_client.ip_string "SAD 99".toList
      = (sample_server, "ERR: Message ID 99 not found.\n".toList) :=
  ⟨by decide, by decide, by decide, by decide, by decide, by decide,
   (reaction_unknown_id sample_server sample_client "SAD 99".toList "SAD".toList
     "99".toList 99 send_outcome.would_block true (by decide) (by decide) (by decide)
     (by decide) (by decide) (by decide)).1⟩

/-- C8: for `C` one of `HAPPY`, `SAD`, a line whose only token is `C` makes the
handler queue `ERR: Message ID not provided for C.` and leaves the store as it
was. -/
theorem reaction_missing_id (srv : server) (client : client_connection)
    (command_line C : List Char) (snd : send_outcome) (mod_ok : Bool)
    (hC : C = "HAPPY".toList ∨ C = "SAD".toList)
    (htok : (extract_token command_line).1 = C)
    (hno : (extract_token (extract_token command_line).2).1 = []) :
    command_response srv client.ip_string command_line
      = (srv, "ERR: Message ID not provided for ".toList ++ C ++ ".\n".toList) ∧
    process_client_command srv client command_line snd mod_ok
      = (srv, queue_data_for_send client
           ("ERR: Message ID not provided for ".toList ++ C ++ ".\n".toList)
           snd mod_ok) := by
  have hr : command_response srv client.ip_string command_line
      = (srv, "ERR: Message ID not provided for ".toList ++ C ++ ".\n".toList) := by
    unfold command_response
    simp only [htok, hno]
    rcases hC with rfl | rfl <;> simp
  exact ⟨hr, process_client_command_of_response snd mod_ok hr (by simp)⟩

/-- C8 at the bare line `HAPPY` on the two message store. -/
theorem reaction_missing_id_witness :
    ("HAPPY".toList = "HAPPY".toList ∨ "HAPPY".toList = "SAD".toList) ∧
    (extract_token "HAPPY".toList).1 = "HAPPY".toList ∧
    (extract_token (extract_token "HAPPY".toList).2).1 = [] ∧
    command_response sample_server sample_client.ip_string "HAPPY".toList
      = (sample_server, "ERR: Message ID not provided for HAPPY.\n".toList) :=
  ⟨by decide, by decide, by decide,
   (reaction_missing_id sample_server sample_client "HAPPY".toList "HAPPY".toList
     send_outcome.would_block true (by decide) (by decide) (by decide)).1⟩

/-! ## Unknown commands -/

/-- C9: a line whose first token `t` is not empty and is none of `POST`, `GET`,
`HAPPY`, `SAD` (compared character by character) makes the handler queue
`ERR: Unknown command 't'.` and leaves the message list and `next_message_id`
as they were. -/
theorem unknown_command (srv : server) (client : client_connection)
    (command_line t : List Char) (snd : send_outcome) (mod_ok : Bool)
    (htok : (extract_token command_line).1 = t) (hne : t ≠ [])
    (h1 : t ≠ "POST".toList) (h2 : t ≠ "GET".toList)
    (h3 : t ≠ "HAPPY".toList) (h4 : t ≠ "SAD".toList) :
    command_response srv client.ip_string command_line
      = (srv, "ERR: Unknown command \x27".toList ++ t ++ "\x27.\n".toList) ∧
    process_client_command srv client command_line snd mod_ok
      = (srv, queue_data_for_send client
           ("ERR: Unknown command \x27".toList ++ t ++ "\x27.\n".toList) snd mod_ok) := by
  have hr : command_response srv client.ip_string command_line
      = (srv, "ERR: Unknown command \x27".toList ++ t ++ "\x27.\n".toList) := by
    have h34 : ¬ (t = "HAPPY".toList ∨ t = "SAD".toList) := by
      rintro (h | h)
      · exact h3 h
      · exact h4 h
    have hemp : (!t.isEmpty) = true := by
      cases t with
      | nil => exact absurd rfl hne
      | cons c cs => rfl
    unfold command_response
    simp only [htok]
    rw [if_neg h1, if_neg h2, if_neg h34, if_pos hemp]
  exact ⟨hr, process_client_command_of_response snd mod_ok hr (by simp)⟩

/-- C9 at the lower case line `post hello` on the two message store. -/
theorem unknown_command_witness :
    (extract_token "post hello".toList).1 = "post".toList ∧
    "post".toList ≠ [] ∧ "post".toList ≠ "POST".toList ∧ "post".toList ≠ "GET".toList ∧
    "post".toList ≠ "HAPPY".toList ∧ "post".toList ≠ "SAD".toList ∧
    command_response sample_server sample_client.ip_string "post hello".toList
      = (sample_server, "ERR: Unknown command \x27post\x27.\n".toList) :=
  ⟨by decide, by decide, by decide, by decide, by decide, by decide,
   (unknown_command sample_server sample_client "post hello".toList "post".toList
     send_outcome.would_block true (by decide) (by decide) (by decide) (by decide)
     (by decide) (by decide)).1⟩

/-! ## Malformed ids -/

/-- C7: for `C` one of `HAPPY`, `SAD` and a line with first token `C` and a
second token `t`, the response is
`ERR: Invalid message ID format 't'. Must be an integer.` exactly when `t` is
not, as a whole, a decimal integer below `2 ^ 64`; when that error is returned
the store is unchanged. -/
theorem reaction_id_format_error (srv : server) (client : client_connection)
    (command_line C t : List Char) (snd : send_outcome) (mod_ok : Bool)
    (hC : C = "HAPPY".toList ∨ C = "SAD".toList)
    (htok : (extract_token command_line).1 = C)
    (ht : (extract_token (extract_token command_line).2).1 = t)
    (hne : t ≠ []) :
    ((command_response srv client.ip_string command_line).2
        = "ERR: Invalid message ID format \x27".toList ++ t
            ++ "\x27. Must be an integer.\n".toList
      ↔ is_uintmax_decimal t = false) ∧
    (is_uintmax_decimal t = false →
      command_response srv client.ip_string command_line
        = (srv, "ERR: Invalid message ID format \x27".toList ++ t
             ++ "\x27. Must be an integer.\n".toList) ∧
      process_client_command srv client command_line snd mod_ok
        = (srv, queue_data_for_send client
             ("ERR: Invalid message ID format \x27".toList ++ t
               ++ "\x27. Must be an integer.\n".toList) snd mod_ok)) := by
  subst ht
  have hbad : is_uintmax_decimal (extract_token (extract_token command_line).2).1 = false →
      command_response srv client.ip_string command_line
        = (srv, "ERR: Invalid message ID format \x27".toList
             ++ (extract_token (extract_token command_line).2).1
             ++ "\x27. Must be an integer.\n".toList) :=
    fun h => reaction_response_bad_id client.ip_string hC htok hne h
  refine ⟨⟨?_, fun h => by rw [hbad h]⟩, fun h =>
    ⟨hbad h, process_client_command_of_response snd mod_ok (hbad h) (by simp)⟩⟩
  intro hresp
  cases hdec : is_uintmax_decimal (extract_token (extract_token command_line).2).1 with
  | false => rfl
  | true =>
    exfalso
    cases hfind : find_if_id srv.messages
        (digits_value (extract_token (extract_token command_line).2).1) with
    | none =>
      rw [reaction_response_not_found client.ip_string hC htok hdec hfind] at hresp
      simp at hresp
    | some i =>
      rw [reaction_response_found client.ip_string hC htok hdec hfind] at hresp
      simp at hresp

/-- C7 at `HAPPY abc` on the two message store, with the tokens `12x`, `-1`,
`+1` and the digits of `2 ^ 64` rejected and the digits of `2 ^ 64 - 1` and
`007` accepted by the same test. -/
theorem reaction_id_format_error_witness :
    ("HAPPY".toList = "HAPPY".toList ∨ "HAPPY".toList = "SAD".toList) ∧
    (extract_token "HAPPY abc".toList).1 = "HAPPY".toList ∧
    (extract_token (extract_token "HAPPY abc".toList).2).1 = "abc".toList ∧
    "abc".toList ≠ [] ∧
    is_uintmax_decimal "abc".toList = false ∧
    is_uintmax_decimal "12x".toList = false ∧
    is_uintmax_decimal "-1".toList = false ∧
    is_uintmax_decimal "+1".toList = false ∧
    is_uintmax_decimal "18446744073709551616".toList = false ∧
    is_uintmax_decimal "18446744073709551615".toList = true ∧
    is_uintmax_decimal "007".toList = true ∧
    command_response sample_server sample_client.ip_string "HAPPY abc".toList
      = (sample_server,
         "ERR: Invalid message ID format \x27abc\x27. Must be an integer.\n".toList) :=
  ⟨by decide, by decide, by decide, by decide, by decide, by decide, by decide, by decide,
   by decide, by decide, by decide,
   ((reaction_id_format_error sample_server sample_client "HAPPY abc".toList
      "HAPPY".toList "abc".toList send_outcome.would_block true (by decide) (by decide)
      (by decide) (by decide)).2 (by decide)).1⟩

/-! ## Blank lines -/

/-- C10: when the read buffer starts with a line made only of spaces, tabs,
carriage returns, form feeds and vertical tabs (possibly none) before its
newline, one pass of the line loop removes the line and its newline from the
buffer, hands nothing to `process_client_command`, and leaves the write
buffer, the write registration, the message list and `next_message_id` as they
were; and `trim` returns the empty string exactly on the strings made only of
whitespace characters. -/
theorem blank_line_is_skipped (srv : server) (client : client_connection)
    (ws rest : List Char) (snd : send_outcome) (mod_ok : Bool)
    (hws : ∀ c ∈ ws, c = ' ' ∨ c = '\t' ∨ c = '\r' ∨ c = '\x0c' ∨ c = '\x0b')
    (hbuf : client.read_buffer = ws ++ '\n' :: rest) :
    extract_line srv client snd mod_ok
      = some { srv := srv, client := some { client with read_buffer := rest },
               dispatched := none } ∧
    (∀ str : List Char,
      trim str = [] ↔ ∀ c ∈ str, c ∈ [' ', '\t', '\n', '\r', '\x0c', '\x0b']) := by
  refine ⟨?_, trim_eq_nil_iff⟩
  have hnl : ∀ d ∈ ws, d ≠ '\n' := by
    intro d hd
    rcases hws d hd with h | h | h | h | h <;> rw [h] <;> decide
  have hset : ∀ c ∈ ws, c ∈ trim_set := by
    intro d hd
    rcases hws d hd with h | h | h | h | h <;> rw [h] <;> decide
  have htrim : trim ws = [] := (trim_eq_nil_iff ws).mpr hset
  simp [extract_line, hbuf, find_char_append hnl, substr, htrim]

/-- C10 at the read buffer holding a line of a space, a tab and a carriage
return, followed by the line `POST hi`. -/
theorem blank_line_is_skipped_witness :
    (∀ c ∈ " \t\r".toList, c = ' ' ∨ c = '\t' ∨ c = '\r' ∨ c = '\x0c' ∨ c = '\x0b') ∧
    ({ sample_client with read_buffer := " \t\r\nPOST hi\n".toList }).read_buffer
      = " \t\r".toList ++ '\n' :: "POST hi\n".toList ∧
    extract_line sample_server
        { sample_client with read_buffer := " \t\r\nPOST hi\n".toList }
        send_outcome.would_block true
      = some { srv := sample_server,
               client := some { sample_client with read_buffer := "POST hi\n".toList },
               dispatched := none } :=
  ⟨by decide, by decide,
   (blank_line_is_skipped sample_server
      { sample_client with read_buffer := " \t\r\nPOST hi\n".toList }
      " \t\r".toList "POST hi\n".toList send_outcome.would_block true
      (by decide) (by decide)).1⟩

/-! ## Identifiers -/

/-- C1: for commands dispatched to a fresh server in any order, on every store
the program can hold (the message vector has fewer than `2 ^ 64` elements), a
successful `POST` that comes after `k` earlier successful ones is answered
`OK: Message k posted.` and appends a message with id `k`, where `k` is also
the number of messages stored so far; every message stored before it has a
smaller id, so the ids handed out increase and none is handed out twice; and a
command that is not a successful `POST` leaves `next_message_id` as it was. -/
theorem post_ids_increase (pre post : List (List Char × List Char))
    (c : List Char × List Char)
    (hpost : is_successful_post c.2 = true)
    (hfit : vector_size_ok (dispatch_all fresh_server pre).1) :
    (dispatch_all fresh_server (pre ++ c :: post)).2[pre.length]?
      = some ("OK: Message ".toList ++ to_string (successful_posts pre)
          ++ " posted.\n".toList) ∧
    (dispatch_all fresh_server (pre ++ [c])).1.messages
      = (dispatch_all fresh_server pre).1.messages ++ [
          { id := successful_posts pre, text := c.2.drop 5, sender_ip := c.1,
            reaction := [] }] ∧
    successful_posts pre = (dispatch_all fresh_server pre).1.messages.length ∧
    (∀ m ∈ (dispatch_all fresh_server pre).1.messages, m.id < successful_posts pre) ∧
    (∀ (srv : server) (client : client_connection) (line : List Char)
        (snd : send_outcome) (mod_ok : Bool),
      is_successful_post line = false →
      (process_client_command srv client line snd mod_ok).1.next_message_id
        = srv.next_message_id) := by
  have hlen0 := dispatch_all_messages_length fresh_server pre
  rw [show fresh_server.messages.length = 0 from rfl, Nat.zero_add] at hlen0
  have hk : successful_posts pre < 2 ^ 64 := by
    rw [← hlen0]
    exact hfit
  have hnext : (dispatch_all fresh_server pre).1.next_message_id = successful_posts pre := by
    rw [dispatch_all_next fresh_server pre (by decide)]
    simp only [fresh_server, Nat.zero_add]
    exact Nat.mod_eq_of_lt hk
  have hids := dispatch_all_ids fresh_server pre
    (by simp only [fresh_server, Nat.zero_add]; exact Nat.le_of_lt hk)
  have hr := post_response (dispatch_all fresh_server pre).1 c.1 hpost
  rw [hnext] at hr
  refine ⟨?_, ?_, hlen0.symm, ?_, fun srv client line snd mod_ok h => ?_⟩
  · rw [dispatch_all_append]
    have hlen := dispatch_all_length fresh_server pre
    simp only [dispatch_all, hr]
    rw [List.getElem?_append_right (by omega)]
    simp [hlen]
  · rw [dispatch_all_append]
    simp only [dispatch_all, hr]
  · intro m hm
    have hmem : m.id ∈ (dispatch_all fresh_server pre).1.messages.map (fun m => m.id) :=
      List.mem_map_of_mem _ hm
    rw [hids] at hmem
    simp only [fresh_server, List.map_nil, List.nil_append, List.mem_range'_1] at hmem
    omega
  · rw [process_client_command_store]
    exact (not_post_keeps_ids srv client.ip_string h).1

/-- C1 at `POST world` sent after `POST hello`, `HAPPY 0`, `GET` and an unknown
command: it is the second successful post and gets id 1. -/
theorem post_ids_increase_witness :
    is_successful_post "POST world".toList = true ∧
    vector_size_ok (dispatch_all fresh_server [("10.0.0.1".toList, "POST hello".toList),
      ("10.0.0.2".toList, "HAPPY 0".toList), ("10.0.0.2".toList, "GET".toList),
      ("10.0.0.1".toList, "bogus".toList)]).1 ∧
    (dispatch_all fresh_server
      ([("10.0.0.1".toList, "POST hello".toList),
        ("10.0.0.2".toList, "HAPPY 0".toList), ("10.0.0.2".toList, "GET".toList),
        ("10.0.0.1".toList, "bogus".toList)]
        ++ ("10.0.0.2".toList, "POST world".toList)
          :: [("10.0.0.1".toList, "GET".toList)])).2[4]?
      = some "OK: Message 1 posted.\n".toList :=
  ⟨by decide, by decide,
   (post_ids_increase
      [("10.0.0.1".toList, "POST hello".toList),
        ("10.0.0.2".toList, "HAPPY 0".toList), ("10.0.0.2".toList, "GET".toList),
        ("10.0.0.1".toList, "bogus".toList)]
      [("10.0.0.1".toList, "GET".toList)]
      ("10.0.0.2".toList, "POST world".toList) (by decide) (by decide)).1⟩

/-! ## Helper lemmas for the connection handlers -/

/-- Queueing keeps the write interest invariant when it does not close. -/
theorem queue_keeps_write_interest {client c : client_connection} {data : List Char}
    {snd : send_outcome} {mod_ok : Bool} (h : write_interest_ok client)
    (hq : queue_data_for_send client data snd mod_ok = some c) :
    write_interest_ok c := by
  obtain ⟨ip, rb, wb, reg⟩ := client
  simp only [write_interest_ok] at h
  cases reg with
  | true =>
    have hwb : wb ++ data ≠ [] := by
      have := h.mp rfl
      simp [this]
    have hemp : (wb ++ data).isEmpty = false := by
      cases hx : wb ++ data with
      | nil => exact absurd hx hwb
      | cons a as => rfl
    simp [queue_data_for_send, hemp] at hq
    subst hq
    simp [write_interest_ok, hwb]
  | false =>
    have hwb : wb = [] := by
      by_contra hne
      have := h.mpr hne
      cases this
    subst hwb
    simp only [queue_data_for_send, List.nil_append, Bool.not_false, Bool.true_and] at hq
    cases hd : data.isEmpty with
    | true =>
      simp [hd] at hq
      subst hq
      simp [write_interest_ok]
      simpa using hd
    | false =>
      simp only [hd, Bool.not_false, if_true] at hq
      cases snd with
      | error => simp at hq
      | would_block =>
        simp [hd] at hq
        obtain ⟨hm, rfl⟩ := hq
        simp [write_interest_ok]
        intro hx
        simp [hx] at hd
      | sent k =>
        simp only [Bool.and_true] at hq
        cases hk : (data.drop k).isEmpty with
        | true =>
          simp [hk] at hq
          subst hq
          simp [write_interest_ok]
          simpa using hk
        | false =>
          simp [hk] at hq
          obtain ⟨hm, rfl⟩ := hq
          simp [write_interest_ok]
          simpa using hk

/-- A write event keeps the write interest invariant when it does not close. -/
theorem write_keeps_write_interest {w w2 : watched_connection}
    {snd : send_outcome} {mod_ok : Bool} (h : write_interest_ok w.client)
    (hq : handle_client_write w snd mod_ok = some w2) :
    write_interest_ok w2.client := by
  obtain ⟨⟨ip, rb, wb, reg⟩, installed⟩ := w
  simp only [write_interest_ok] at h
  cases hwb : wb.isEmpty with
  | true =>
    have hnil : wb = [] := by simpa using hwb
    subst hnil
    cases reg with
    | true => exact absurd rfl (h.mp rfl)
    | false =>
      simp [handle_client_write] at hq
      subst hq
      simp [write_interest_ok]
  | false =>
    have hne : wb ≠ [] := by
      intro hx
      simp [hx] at hwb
    have hreg : reg = true := h.mpr hne
    subst hreg
    simp only [handle_client_write, hwb] at hq
    cases snd with
    | error => simp at hq
    | would_block =>
      simp at hq
      subst hq
      simp [write_interest_ok, hne]
    | sent k =>
      cases hk : (wb.drop k).isEmpty with
      | true =>
        simp [hk] at hq
        subst hq
        simp [write_interest_ok]
        simpa using hk
      | false =>
        simp [hk] at hq
        subst hq
        simp [write_interest_ok]
        simpa using hk

/-- A descriptor that cannot be made non blocking is skipped. -/
theorem accept_step_non_blocking_failed (table : List (Nat × client_connection)) (fd : Nat)
    (ip : Option (List Char)) (mk reg : Bool) (xs : List accept_outcome) :
    accept_new_connections table (accept_outcome.descriptor fd false ip mk reg :: xs)
      = accept_new_connections table xs := by
  simp [accept_new_connections]

/-- A descriptor whose address cannot be built is skipped. -/
theorem accept_step_ip_failed (table : List (Nat × client_connection)) (fd : Nat)
    (mk reg : Bool) (xs : List accept_outcome) :
    accept_new_connections table (accept_outcome.descriptor fd true none mk reg :: xs)
      = accept_new_connections table xs := by
  simp [accept_new_connections]

/-- A descriptor that cannot be registered is skipped. -/
theorem accept_step_register_failed (table : List (Nat × client_connection)) (fd : Nat)
    (ip : List Char) (xs : List accept_outcome) :
    accept_new_connections table (accept_outcome.descriptor fd true (some ip) true false :: xs)
      = accept_new_connections table xs := by
  simp [accept_new_connections]

/-- A descriptor that passes every set-up step is emplaced. -/
theorem accept_step_inserted (table : List (Nat × client_connection)) (fd : Nat)
    (ip : List Char) (xs : List accept_outcome) :
    accept_new_connections table (accept_outcome.descriptor fd true (some ip) true true :: xs)
      = accept_new_connections (emplace table fd (new_connection ip)) xs := by
  simp [accept_new_connections]

/-- Passes that got a descriptor without throwing emplace their set-up connections and go on with the next pass. -/
theorem accept_passes_emplace (table : List (Nat × client_connection))
    (pre rest : List accept_outcome)
    (hpre : ∀ o ∈ pre, accepted_without_throw o = true) :
    accept_new_connections table (pre ++ rest)
      = accept_new_connections (emplace_all table (pre.filterMap set_up_connection)) rest := by
  induction pre generalizing table with
  | nil => rfl
  | cons o os ih =>
    have ho := hpre o (List.mem_cons_self _ _)
    have hos : ∀ x ∈ os, accepted_without_throw x = true :=
      fun x hx => hpre x (List.mem_cons_of_mem _ hx)
    cases o with
    | would_block => cases ho
    | error => cases ho
    | descriptor fd nb ip mk reg =>
      cases nb with
      | false =>
        rw [List.cons_append, accept_step_non_blocking_failed, ih table hos]
        simp [set_up_connection, List.filterMap_cons]
      | true =>
        cases ip with
        | none =>
          rw [List.cons_append, accept_step_ip_failed, ih table hos]
          simp [set_up_connection, List.filterMap_cons]
        | some ip_string =>
          cases mk with
          | false => cases ho
          | true =>
            cases reg with
            | false =>
              rw [List.cons_append, accept_step_register_failed, ih table hos]
              simp [set_up_connection, List.filterMap_cons]
            | true =>
              rw [List.cons_append, accept_step_inserted, ih _ hos]
              simp [set_up_connection, List.filterMap_cons, emplace_all]

/-- After `emplace` the key is in the table. -/
theorem emplace_has_key (table : List (Nat × client_connection)) (fd : Nat)
    (conn : client_connection) : fd ∈ (emplace table fd conn).map (fun e => e.1) := by
  unfold emplace
  split
  · rename_i h
    simp only [List.any_eq_true, decide_eq_true_eq] at h
    obtain ⟨e, he, hfd⟩ := h
    exact List.mem_map.mpr ⟨e, he, hfd⟩
  · simp

/-- The call `emplace` removes no key. -/
theorem emplace_keeps_keys (table : List (Nat × client_connection)) (fd k : Nat)
    (conn : client_connection) (h : k ∈ table.map (fun e => e.1)) :
    k ∈ (emplace table fd conn).map (fun e => e.1) := by
  unfold emplace
  split
  · exact h
  · simp only [List.map_append, List.mem_append]
    exact Or.inl h

/-- Emplacing a list removes no key. -/
theorem emplace_all_keeps_keys (conns table : List (Nat × client_connection)) (k : Nat)
    (h : k ∈ table.map (fun e => e.1)) :
    k ∈ (emplace_all table conns).map (fun e => e.1) := by
  induction conns generalizing table with
  | nil => exact h
  | cons p ps ih => exact ih _ (emplace_keeps_keys table p.1 k p.2 h)

/-- Every key of an emplaced list is in the table. -/
theorem emplace_all_has_keys (conns table : List (Nat × client_connection))
    (p : Nat × client_connection) (hp : p ∈ conns) :
    p.1 ∈ (emplace_all table conns).map (fun e => e.1) := by
  induction conns generalizing table with
  | nil => cases hp
  | cons q qs ih =>
    rcases List.mem_cons.mp hp with rfl | h
    · exact emplace_all_keeps_keys qs _ _ (emplace_has_key table p.1 p.2)
    · exact ih _ h

/-- The last character of a concatenation is the last character of its second part. -/
theorem getLast_append_literal (a b : List Char) (c : Char) (h : b.getLast? = some c) :
    (a ++ b).getLast? = some c := by
  rw [List.getLast?_append, h]
  rfl

/-- A listing line ends with a newline. -/
theorem format_message_ends_newline (m : message) :
    (format_message m).getLast? = some '\n' := by
  unfold format_message
  exact getLast_append_literal _ _ _ (by decide)

/-- A non-empty listing ends with a newline. -/
theorem listing_ends_newline (msgs : List message) (h : msgs ≠ []) :
    ((msgs.map format_message).flatten).getLast? = some '\n' := by
  induction msgs with
  | nil => exact absurd rfl h
  | cons m ms ih =>
    cases ms with
    | nil => simpa using format_message_ends_newline m
    | cons m2 ms2 =>
      have := ih (by simp)
      simp only [List.map_cons, List.flatten_cons] at this ⊢
      exact getLast_append_literal _ _ _ this

/-- A line that starts with a character that is not whitespace has a first token. -/
theorem first_token_ne_nil {command_line : List Char} (hne : command_line ≠ [])
    (hhead : ∀ c, command_line.head? = some c → isspace c = false) :
    (extract_token command_line).1 ≠ [] := by
  cases command_line with
  | nil => exact absurd rfl hne
  | cons c cs =>
    have hc := hhead c rfl
    simp [extract_token, hc]

/-- Whenever the first token is present the response ends with a newline. -/
theorem command_response_ends_newline (srv : server) (ip command_line : List Char)
    (htok : (extract_token command_line).1 ≠ []) :
    (command_response srv ip command_line).2.getLast? = some '\n' := by
  unfold command_response
  simp only
  split
  · split
    · exact getLast_append_literal _ _ _ (by decide)
    · rfl
  · split
    · split
      · rfl
      · rename_i hm
        exact listing_ends_newline _ (by simpa using hm)
    · split
      · split
        · exact getLast_append_literal _ _ _ (by decide)
        · split
          · split
            · exact getLast_append_literal _ _ _ (by decide)
            · exact getLast_append_literal _ _ _ (by decide)
          · exact getLast_append_literal _ _ _ (by decide)
      · split
        · exact getLast_append_literal _ _ _ (by decide)
        · rename_i hemp
          exfalso
          apply htok
          simpa using hemp

/-- The search for an absent character fails. -/
theorem find_char_eq_none {str : List Char} {c : Char} (h : c ∉ str) :
    find_char str c = none := by
  induction str with
  | nil => rfl
  | cons d ds ih =>
    have hd : d ≠ c := fun e => h (e ▸ List.mem_cons_self _ _)
    have := ih (fun hm => h (List.mem_cons_of_mem _ hm))
    simp [find_char, hd, this]

/-- A string either lacks the character or splits at its first occurrence. -/
theorem first_line_split (str : List Char) (c : Char) :
    c ∉ str ∨ ∃ l rest, str = l ++ c :: rest ∧ c ∉ l := by
  induction str with
  | nil => exact Or.inl (by simp)
  | cons d ds ih =>
    by_cases hd : d = c
    · exact Or.inr ⟨[], ds, by simp [hd], by simp⟩
    · rcases ih with h | ⟨l, rest, he, hl⟩
      · left
        intro hm
        rcases List.mem_cons.mp hm with e | hm2
        · exact hd e.symm
        · exact h hm2
      · right
        refine ⟨d :: l, rest, by simp [he], ?_⟩
        intro hm
        rcases List.mem_cons.mp hm with e | hm2
        · exact hd e.symm
        · exact hl hm2

/-- Queueing on a connection registered for writing only appends. -/
theorem queue_of_registered (ip rb wb data : List Char) (snd : send_outcome) (mod_ok : Bool) :
    queue_data_for_send ⟨ip, rb, wb, true⟩ data snd mod_ok
      = some ⟨ip, rb, wb ++ data, true⟩ := by
  simp [queue_data_for_send]

/-- Queueing nothing on an empty buffer changes nothing. -/
theorem queue_of_empty (ip rb wb data : List Char) (snd : send_outcome) (mod_ok : Bool)
    (hb : (wb ++ data).isEmpty = true) :
    queue_data_for_send ⟨ip, rb, wb, false⟩ data snd mod_ok
      = some ⟨ip, rb, wb ++ data, false⟩ := by
  simp_all [queue_data_for_send]

/-- A failed `send` closes the connection. -/
theorem queue_of_error (ip rb wb data : List Char) (mod_ok : Bool)
    (hb : (wb ++ data).isEmpty = false) :
    queue_data_for_send ⟨ip, rb, wb, false⟩ data send_outcome.error mod_ok = none := by
  simp_all [queue_data_for_send]

/-- A blocked `send` leads to the registration for writing. -/
theorem queue_of_would_block (ip rb wb data : List Char) (mod_ok : Bool)
    (hb : (wb ++ data).isEmpty = false) :
    queue_data_for_send ⟨ip, rb, wb, false⟩ data send_outcome.would_block mod_ok
      = if mod_ok = true then some ⟨ip, rb, wb ++ data, true⟩ else none := by
  simp_all [queue_data_for_send]

/-- A `send` that takes the whole buffer needs no registration. -/
theorem queue_of_sent_all (ip rb wb data : List Char) (k : Nat) (mod_ok : Bool)
    (hb : (wb ++ data).isEmpty = false) (hk : ((wb ++ data).drop k).isEmpty = true) :
    queue_data_for_send ⟨ip, rb, wb, false⟩ data (send_outcome.sent k) mod_ok
      = some ⟨ip, rb, (wb ++ data).drop k, false⟩ := by
  simp_all [queue_data_for_send]

/-- A `send` that leaves bytes leads to the registration for writing. -/
theorem queue_of_sent_part (ip rb wb data : List Char) (k : Nat) (mod_ok : Bool)
    (hb : (wb ++ data).isEmpty = false) (hk : ((wb ++ data).drop k).isEmpty = false) :
    queue_data_for_send ⟨ip, rb, wb, false⟩ data (send_outcome.sent k) mod_ok
      = if mod_ok = true then some ⟨ip, rb, (wb ++ data).drop k, true⟩ else none := by
  simp_all [queue_data_for_send]

/-- Queueing either closes, or drops from the head of the extended buffer exactly the bytes `send` took. -/
theorem queue_cases (c : client_connection) (data : List Char) (snd : send_outcome)
    (mod_ok : Bool) :
    queue_data_for_send c data snd mod_ok = none ∨
    ∃ k reg, queue_data_for_send c data snd mod_ok
        = some { c with write_buffer := (c.write_buffer ++ data).drop k,
                        writing_registered := reg } ∧
      bytes_sent_by_queue c data snd = (c.write_buffer ++ data).take k := by
  obtain ⟨ip, rb, wb, reg⟩ := c
  cases reg with
  | true =>
    exact Or.inr ⟨0, true, by rw [queue_of_registered]; rfl, by simp [bytes_sent_by_queue]⟩
  | false =>
    cases hb : (wb ++ data).isEmpty with
    | true =>
      refine Or.inr ⟨0, false, by rw [queue_of_empty _ _ _ _ _ _ hb]; rfl, ?_⟩
      simp_all [bytes_sent_by_queue]
    | false =>
      cases snd with
      | error => exact Or.inl (queue_of_error _ _ _ _ _ hb)
      | would_block =>
        cases mod_ok with
        | false => exact Or.inl (by rw [queue_of_would_block _ _ _ _ _ hb]; rfl)
        | true =>
          refine Or.inr ⟨0, true, by rw [queue_of_would_block _ _ _ _ _ hb]; rfl, ?_⟩
          simp [bytes_sent_by_queue]
      | sent k =>
        have hsent : bytes_sent_by_queue ⟨ip, rb, wb, false⟩ data (send_outcome.sent k)
            = (wb ++ data).take k := by
          simp_all [bytes_sent_by_queue]
        cases hk : ((wb ++ data).drop k).isEmpty with
        | true =>
          exact Or.inr ⟨k, false, by rw [queue_of_sent_all _ _ _ _ _ _ hb hk], hsent⟩
        | false =>
          cases mod_ok with
          | false => exact Or.inl (by rw [queue_of_sent_part _ _ _ _ _ _ hb hk]; rfl)
          | true =>
            exact Or.inr ⟨k, true, by rw [queue_of_sent_part _ _ _ _ _ _ hb hk]; rfl, hsent⟩

/-- Queueing does not look at the read buffer. -/
theorem queue_read_buffer_indep (c : client_connection) (r data : List Char)
    (snd : send_outcome) (mod_ok : Bool) :
    queue_data_for_send { c with read_buffer := r } data snd mod_ok
      = (queue_data_for_send c data snd mod_ok).map (fun c2 => { c2 with read_buffer := r }) := by
  obtain ⟨ip, rb, wb, reg⟩ := c
  cases reg with
  | true => rw [queue_of_registered, queue_of_registered]; rfl
  | false =>
    cases hb : (wb ++ data).isEmpty with
    | true => rw [queue_of_empty _ _ _ _ _ _ hb, queue_of_empty _ _ _ _ _ _ hb]; rfl
    | false =>
      cases snd with
      | error => rw [queue_of_error _ _ _ _ _ hb, queue_of_error _ _ _ _ _ hb]; rfl
      | would_block =>
        rw [queue_of_would_block _ _ _ _ _ hb, queue_of_would_block _ _ _ _ _ hb]
        cases mod_ok <;> rfl
      | sent k =>
        cases hk : ((wb ++ data).drop k).isEmpty with
        | true =>
          rw [queue_of_sent_all _ _ _ _ _ _ hb hk, queue_of_sent_all _ _ _ _ _ _ hb hk]; rfl
        | false =>
          rw [queue_of_sent_part _ _ _ _ _ _ hb hk, queue_of_sent_part _ _ _ _ _ _ hb hk]
          cases mod_ok <;> rfl

/-- Queueing keeps the read buffer and the address. -/
theorem queue_keeps_other_fields {c c2 : client_connection} {data : List Char}
    {snd : send_outcome} {mod_ok : Bool}
    (h : queue_data_for_send c data snd mod_ok = some c2) :
    c2.read_buffer = c.read_buffer ∧ c2.ip_string = c.ip_string := by
  rcases queue_cases c data snd mod_ok with hn | ⟨k, reg, hs, _⟩
  · rw [hn] at h; cases h
  · rw [hs] at h
    cases h
    exact ⟨rfl, rfl⟩

/-- The bytes taken by `send` followed by the buffer left are the old buffer followed by the data. -/
theorem queue_conserves_bytes {c c2 : client_connection} {data : List Char}
    {snd : send_outcome} {mod_ok : Bool}
    (h : queue_data_for_send c data snd mod_ok = some c2) :
    bytes_sent_by_queue c data snd ++ c2.write_buffer = c.write_buffer ++ data := by
  rcases queue_cases c data snd mod_ok with hn | ⟨k, reg, hs, hb⟩
  · rw [hn] at h; cases h
  · rw [hs] at h
    cases h
    rw [hb]
    exact List.take_append_drop k _

/-- The bytes `send` takes do not depend on the read buffer. -/
theorem bytes_sent_read_buffer_indep (c : client_connection) (r data : List Char)
    (snd : send_outcome) :
    bytes_sent_by_queue { c with read_buffer := r } data snd
      = bytes_sent_by_queue c data snd := rfl

/-- Without a newline in the read buffer the loop condition is false. -/
theorem line_pass_none {env : Nat → send_outcome × Bool} {st : read_state}
    (h : '\n' ∉ st.client.read_buffer) : line_pass env st = none := by
  simp [line_pass, find_char_eq_none h]

/-- With a first line `l` in the read buffer the pass is `after_line`. -/
theorem line_pass_line {env : Nat → send_outcome × Bool} {st : read_state}
    {l rest : List Char} (hbuf : st.client.read_buffer = l ++ '\n' :: rest)
    (hl : '\n' ∉ l) : line_pass env st = some (after_line env st l rest) := by
  have hfind : find_char st.client.read_buffer '\n' = some l.length := by
    rw [hbuf]
    exact find_char_append (fun d hd e => hl (e ▸ hd))
  have hsub : substr st.client.read_buffer 0 l.length = l := by
    simp [substr, hbuf]
  have hdrop : st.client.read_buffer.drop (l.length + 1) = rest := by
    simp [hbuf]
  simp only [line_pass, hfind, hsub, hdrop, after_line]
  cases h : (trim l).isEmpty <;> simp

/-- The handler does not look at the read buffer. -/
theorem process_read_buffer_indep (srv : server) (c : client_connection)
    (r line : List Char) (snd : send_outcome) (mod_ok : Bool) :
    process_client_command srv { c with read_buffer := r } line snd mod_ok
      = ((process_client_command srv c line snd mod_ok).1,
         (process_client_command srv c line snd mod_ok).2.map
           (fun c2 => { c2 with read_buffer := r })) := by
  simp only [process_client_command]
  split
  · rw [queue_read_buffer_indep]
  · rfl

/-- The handler keeps the read buffer and the address. -/
theorem process_keeps_other_fields {srv : server} {c c2 : client_connection}
    {line : List Char} {snd : send_outcome} {mod_ok : Bool}
    (h : (process_client_command srv c line snd mod_ok).2 = some c2) :
    c2.read_buffer = c.read_buffer ∧ c2.ip_string = c.ip_string := by
  simp only [process_client_command] at h
  split at h
  · exact queue_keeps_other_fields h
  · cases h
    exact ⟨rfl, rfl⟩

/-- Bytes that follow the line taken are left untouched by the pass. -/
theorem after_line_append (env : Nat → send_outcome × Bool) (st : read_state)
    (l rest bytes : List Char) :
    after_line env st l (rest ++ bytes) = append_chunk (after_line env st l rest) bytes := by
  unfold after_line
  simp only
  cases h : (trim l).isEmpty with
  | true => simp [append_chunk]
  | false =>
    simp only [Bool.false_eq_true, if_false, append_chunk]
    rw [process_read_buffer_indep st.srv st.client (rest ++ bytes),
      process_read_buffer_indep st.srv st.client rest]
    cases hr : (process_client_command st.srv st.client (trim l)
        (env st.dispatched.length).1 (env st.dispatched.length).2).2 with
    | none => simp [bytes_sent_by_command, bytes_sent_by_queue]
    | some c2 => simp [bytes_sent_by_command, bytes_sent_by_queue]

/-- A pass is not affected by bytes appended to the read buffer. -/
theorem line_pass_append {env : Nat → send_outcome × Bool} {st st2 : read_state}
    (bytes : List Char) (h : line_pass env st = some st2) :
    line_pass env (append_chunk st bytes) = some (append_chunk st2 bytes) := by
  rcases first_line_split st.client.read_buffer '\n' with hn | ⟨l, rest, hbuf, hl⟩
  · rw [line_pass_none hn] at h
    cases h
  · rw [line_pass_line hbuf hl] at h
    cases h
    have hbuf2 : (append_chunk st bytes).client.read_buffer = l ++ '\n' :: (rest ++ bytes) := by
      simp [append_chunk, hbuf]
    rw [line_pass_line hbuf2 hl, ← after_line_append]
    rfl

/-- Every pass shortens the read buffer. -/
theorem line_pass_shorter {env : Nat → send_outcome × Bool} {st st2 : read_state}
    (h : line_pass env st = some st2) :
    st2.client.read_buffer.length < st.client.read_buffer.length := by
  rcases first_line_split st.client.read_buffer '\n' with hn | ⟨l, rest, hbuf, hl⟩
  · rw [line_pass_none hn] at h
    cases h
  · rw [line_pass_line hbuf hl] at h
    cases h
    have hrb : (after_line env st l rest).client.read_buffer = rest := by
      unfold after_line
      simp only
      cases ht : (trim l).isEmpty with
      | true => simp
      | false =>
        simp only [Bool.false_eq_true, if_false]
        cases hr : (process_client_command st.srv { st.client with read_buffer := rest }
            (trim l) (env st.dispatched.length).1 (env st.dispatched.length).2).2 with
        | none => rfl
        | some c2 => exact (process_keeps_other_fields hr).1
    rw [hrb, hbuf]
    simp
    omega

/-- One more unit of fuel changes nothing once the fuel covers the buffer. -/
theorem read_lines_fuel (env : Nat → send_outcome × Bool) (fuel : Nat) (st : read_state)
    (h : st.client.read_buffer.length ≤ fuel) :
    read_lines (fuel + 1) env st = read_lines fuel env st := by
  induction fuel generalizing st with
  | zero =>
    have hnil : st.client.read_buffer = [] := List.eq_nil_of_length_eq_zero (by omega)
    have : line_pass env st = none :=
      line_pass_none (by rw [hnil]; exact List.not_mem_nil _)
    simp [read_lines, this]
  | succ n ih =>
    cases hp : line_pass env st with
    | none => simp [read_lines, hp]
    | some st2 =>
      have hlt := line_pass_shorter hp
      have := ih st2 (by omega)
      rw [read_lines, hp]
      simp only
      rw [this]
      simp [read_lines, hp]

/-- Any fuel that covers the buffer gives the result of `handle_lines`. -/
theorem read_lines_enough (env : Nat → send_outcome × Bool) (fuel : Nat) (st : read_state)
    (h : st.client.read_buffer.length ≤ fuel) :
    read_lines fuel env st = handle_lines env st := by
  induction fuel with
  | zero =>
    have : st.client.read_buffer.length = 0 := by omega
    simp [handle_lines, this]
  | succ n ih =>
    by_cases hle : st.client.read_buffer.length ≤ n
    · rw [read_lines_fuel env n st hle]
      exact ih hle
    · have : st.client.read_buffer.length = n + 1 := by omega
      simp [handle_lines, this]

/-- The loop after one pass is the loop on the state after that pass. -/
theorem handle_lines_step {env : Nat → send_outcome × Bool} {st st2 : read_state}
    (h : line_pass env st = some st2) : handle_lines env st = handle_lines env st2 := by
  have hlt := line_pass_shorter h
  cases hlen : st.client.read_buffer.length with
  | zero => omega
  | succ n =>
    rw [handle_lines, hlen, read_lines, h]
    exact read_lines_enough env n st2 (by omega)

/-- The loop stops where the loop condition is false. -/
theorem handle_lines_done {env : Nat → send_outcome × Bool} {st : read_state}
    (h : line_pass env st = none) : handle_lines env st = st := by
  cases hlen : st.client.read_buffer.length with
  | zero => simp [handle_lines, hlen, read_lines]
  | succ n => simp [handle_lines, hlen, read_lines, h]

/-- Running the loop, then appending bytes and running it again, is running it once on the extended buffer. -/
theorem handle_lines_append (env : Nat → send_outcome × Bool) (fuel : Nat)
    (st : read_state) (bytes : List Char)
    (h : st.client.read_buffer.length ≤ fuel) :
    handle_lines env (append_chunk (handle_lines env st) bytes)
      = handle_lines env (append_chunk st bytes) := by
  induction fuel generalizing st with
  | zero =>
    have hnil : st.client.read_buffer = [] := List.eq_nil_of_length_eq_zero (by omega)
    have hdone : handle_lines env st = st :=
      handle_lines_done (line_pass_none (by rw [hnil]; exact List.not_mem_nil _))
    rw [hdone]
  | succ n ih =>
    cases hp : line_pass env st with
    | none => rw [handle_lines_done hp]
    | some st2 =>
      have hlt := line_pass_shorter hp
      rw [handle_lines_step hp, ih st2 (by omega),
        handle_lines_step (line_pass_append bytes hp)]

/-- A string without newline has no complete line. -/
theorem split_lines_no_newline {buffer : List Char} (h : '\n' ∉ buffer) :
    split_lines buffer = ([], buffer) := by
  induction buffer with
  | nil => rfl
  | cons c cs ih =>
    have hc : c ≠ '\n' := fun e => h (e ▸ List.mem_cons_self _ _)
    have := ih (fun hm => h (List.mem_cons_of_mem _ hm))
    simp [split_lines, hc, this]

/-- The first complete line is the text before the first newline. -/
theorem split_lines_line {l : List Char} (rest : List Char) (h : '\n' ∉ l) :
    split_lines (l ++ '\n' :: rest)
      = (l :: (split_lines rest).1, (split_lines rest).2) := by
  induction l with
  | nil => simp [split_lines]
  | cons c cs ih =>
    have hc : c ≠ '\n' := fun e => h (e ▸ List.mem_cons_self _ _)
    have := ih (fun hm => h (List.mem_cons_of_mem _ hm))
    simp [split_lines, hc, this]

/-- The text after the last newline holds no newline. -/
theorem split_lines_rest_no_newline (buffer : List Char) :
    '\n' ∉ (split_lines buffer).2 := by
  induction buffer with
  | nil => simp [split_lines]
  | cons c cs ih =>
    by_cases hc : c = '\n'
    · simpa [split_lines, hc] using ih
    · simp only [split_lines, hc, if_false]
      cases h1 : (split_lines cs).1 with
      | nil =>
        simp only
        intro hm
        rcases List.mem_cons.mp hm with e | hm2
        · exact hc e.symm
        · exact ih hm2
      | cons l ls => simpa using ih

/-- A string without newline carries no command line. -/
theorem command_lines_no_newline {buffer : List Char} (h : '\n' ∉ buffer) :
    command_lines buffer = [] := by
  simp [command_lines, split_lines_no_newline h]

/-- The command lines of a string are that of its first line followed by those of the rest. -/
theorem command_lines_line {l : List Char} (rest : List Char) (h : '\n' ∉ l) :
    command_lines (l ++ '\n' :: rest)
      = (if (trim l).isEmpty then [] else [trim l]) ++ command_lines rest := by
  simp only [command_lines, split_lines_line rest h, List.map_cons, List.filter_cons]
  cases (trim l).isEmpty <;> simp

/-- Answering two lists of lines in turn. -/
theorem store_after_append (srv : server) (ip : List Char) (a b : List (List Char)) :
    store_after srv ip (a ++ b) = store_after (store_after srv ip a) ip b := by
  simp [store_after, dispatch_all_append]

/-- The responses to two lists of lines in turn. -/
theorem responses_to_append (srv : server) (ip : List Char) (a b : List (List Char)) :
    responses_to srv ip (a ++ b)
      = responses_to srv ip a ++ responses_to (store_after srv ip a) ip b := by
  simp [responses_to, store_after, dispatch_all_append]

/-- What one pass does to each component of the loop state. -/
theorem after_line_facts (env : Nat → send_outcome × Bool) (st : read_state)
    (l rest : List Char) :
    (after_line env st l rest).client.read_buffer = rest ∧
    (after_line env st l rest).client.ip_string = st.client.ip_string ∧
    (after_line env st l rest).dispatched
      = st.dispatched ++ (if (trim l).isEmpty then [] else [trim l]) ∧
    (after_line env st l rest).srv
      = store_after st.srv st.client.ip_string (if (trim l).isEmpty then [] else [trim l]) ∧
    (st.closed = true → (after_line env st l rest).closed = true) ∧
    ((after_line env st l rest).closed = false →
      (after_line env st l rest).accepted ++ (after_line env st l rest).client.write_buffer
        = st.accepted ++ st.client.write_buffer
          ++ responses_to st.srv st.client.ip_string
              (if (trim l).isEmpty then [] else [trim l])) := by
  unfold after_line
  simp only
  cases ht : (trim l).isEmpty with
  | true => simp [store_after, responses_to, dispatch_all]
  | false =>
    simp only [Bool.false_eq_true, if_false]
    have hstore := process_client_command_store st.srv { st.client with read_buffer := rest }
      (trim l) (env st.dispatched.length).1 (env st.dispatched.length).2
    cases hr : (process_client_command st.srv { st.client with read_buffer := rest }
        (trim l) (env st.dispatched.length).1 (env st.dispatched.length).2).2 with
    | none =>
      refine ⟨rfl, rfl, trivial, ?_, fun _ => by simp, fun h => by simp at h⟩
      rw [hstore]
      simp [store_after, dispatch_all]
    | some c2 =>
      have hk := process_keeps_other_fields hr
      refine ⟨hk.1, hk.2, trivial, ?_, fun h => by simp [h], fun _ => ?_⟩
      · rw [hstore]
        simp [store_after, dispatch_all]
      · simp only [process_client_command] at hr
        simp only [bytes_sent_by_command, responses_to, dispatch_all, List.map_cons,
          List.map_nil, List.flatten_cons, List.flatten_nil, List.append_nil]
        split at hr
        · rename_i hne
          simp only [hne, if_true]
          have := queue_conserves_bytes hr
          simp only at this
          rw [List.append_assoc, this, List.append_assoc]
        · rename_i hne
          cases hr
          simp only [hne]
          have hnil : (command_response st.srv st.client.ip_string (trim l)).2 = [] := by
            simpa using hne
          simp [hnil]

/-- What the whole loop does to each component of the loop state. -/
theorem handle_lines_facts (env : Nat → send_outcome × Bool) (fuel : Nat) (st : read_state)
    (h : st.client.read_buffer.length ≤ fuel) :
    (handle_lines env st).client.read_buffer = (split_lines st.client.read_buffer).2 ∧
    (handle_lines env st).client.ip_string = st.client.ip_string ∧
    (handle_lines env st).dispatched
      = st.dispatched ++ command_lines st.client.read_buffer ∧
    (handle_lines env st).srv
      = store_after st.srv st.client.ip_string (command_lines st.client.read_buffer) ∧
    (st.closed = true → (handle_lines env st).closed = true) ∧
    ((handle_lines env st).closed = false →
      (handle_lines env st).accepted ++ (handle_lines env st).client.write_buffer
        = st.accepted ++ st.client.write_buffer
          ++ responses_to st.srv st.client.ip_string
              (command_lines st.client.read_buffer)) := by
  induction fuel generalizing st with
  | zero =>
    have hnil : st.client.read_buffer = [] := List.eq_nil_of_length_eq_zero (by omega)
    have hdone : handle_lines env st = st :=
      handle_lines_done (line_pass_none (by rw [hnil]; exact List.not_mem_nil _))
    rw [hdone, hnil]
    simp [split_lines, command_lines, store_after, responses_to, dispatch_all]
  | succ n ih =>
    rcases first_line_split st.client.read_buffer '\n' with hn | ⟨l, rest, hbuf, hl⟩
    · rw [handle_lines_done (line_pass_none hn), split_lines_no_newline hn,
        command_lines_no_newline hn]
      simp [store_after, responses_to, dispatch_all]
    · have hp : line_pass env st = some (after_line env st l rest) := line_pass_line hbuf hl
      have hlt := line_pass_shorter hp
      have hf := after_line_facts env st l rest
      obtain ⟨f1, f2, f3, f4, f5, f6⟩ := hf
      obtain ⟨g1, g2, g3, g4, g5, g6⟩ := ih (after_line env st l rest) (by omega)
      rw [handle_lines_step hp, hbuf, split_lines_line rest hl, command_lines_line rest hl]
      rw [f1] at g1 g3 g4 g6
      rw [f2] at g2 g4 g6
      rw [f3] at g3
      rw [f4] at g4 g6
      refine ⟨g1, g2, ?_, ?_, fun hc => g5 (f5 hc), fun hc => ?_⟩
      · rw [g3, List.append_assoc]
      · rw [g4, store_after_append]
      · have hmid : (after_line env st l rest).closed = false := by
          cases hx : (after_line env st l rest).closed with
          | false => rfl
          | true =>
            rw [g5 hx] at hc
            cases hc
        rw [g6 hc, f6 hmid, responses_to_append]
        simp only [List.append_assoc]

/-- The write event drops from the head of the buffer exactly the bytes `send` took. -/
theorem write_conserves_bytes {w w2 : watched_connection} {snd : send_outcome}
    {mod_ok : Bool} (h : handle_client_write w snd mod_ok = some w2) :
    bytes_sent_by_write w.client snd ++ w2.client.write_buffer = w.client.write_buffer := by
  unfold handle_client_write at h
  unfold bytes_sent_by_write
  cases hb : w.client.write_buffer.isEmpty with
  | true =>
    have hnil : w.client.write_buffer = [] := by simpa using hb
    simp only [hb, if_true] at h ⊢
    split at h <;> cases h <;> simp [hnil]
  | false =>
    simp only [hb, Bool.false_eq_true, if_false] at h ⊢
    cases snd with
    | error => cases h
    | would_block => cases h; simp
    | sent k =>
      simp only at h ⊢
      split at h <;> cases h <;> simp

/-- The drain loop appends the chunks in order and touches nothing else. -/
theorem drain_recv_eq (client : client_connection) (chunks : List (List Char)) :
    drain_recv client chunks
      = { client with read_buffer := client.read_buffer ++ chunks.flatten } := by
  induction chunks generalizing client with
  | nil => simp [drain_recv]
  | cons b bs ih => simp [drain_recv, ih]

/-- Queueing with the mask carried along acts on the connection as
`queue_data_for_send`. -/
theorem queue_watched_client (w : watched_connection) (data : List Char)
    (snd : send_outcome) (mod_ok : Bool) :
    (queue_data_for_send_watched w data snd mod_ok).map (fun x => x.client)
      = queue_data_for_send w.client data snd mod_ok := by
  obtain ⟨⟨ip, rb, wb, reg⟩, inst⟩ := w
  cases reg with
  | true => simp [queue_data_for_send_watched, queue_data_for_send]
  | false =>
    cases hb : (wb ++ data).isEmpty with
    | true =>
      rw [queue_of_empty _ _ _ _ _ _ hb]
      simp_all [queue_data_for_send_watched]
    | false =>
      cases snd with
      | error =>
        rw [queue_of_error _ _ _ _ _ hb]
        simp_all [queue_data_for_send_watched]
      | would_block =>
        rw [queue_of_would_block _ _ _ _ _ hb]
        cases mod_ok <;> simp_all [queue_data_for_send_watched]
      | sent k =>
        cases hk : ((wb ++ data).drop k).isEmpty with
        | true =>
          rw [queue_of_sent_all _ _ _ _ _ _ hb hk]
          simp_all [queue_data_for_send_watched]
        | false =>
          rw [queue_of_sent_part _ _ _ _ _ _ hb hk]
          cases mod_ok <;> simp_all [queue_data_for_send_watched]

/-- Queueing keeps the flag in step with the installed mask. -/
theorem queue_watched_keeps_mask {w w2 : watched_connection} {data : List Char}
    {snd : send_outcome} {mod_ok : Bool} (h : flag_matches_mask w)
    (hq : queue_data_for_send_watched w data snd mod_ok = some w2) :
    flag_matches_mask w2 := by
  obtain ⟨⟨ip, rb, wb, reg⟩, ⟨ein, eout, eet⟩⟩ := w
  simp only [flag_matches_mask] at h
  cases reg with
  | true =>
    simp [queue_data_for_send_watched] at hq
    subst hq
    simpa [flag_matches_mask] using h
  | false =>
    have hout : eout = false := by
      cases eout with
      | false => rfl
      | true => exact absurd (h.mpr rfl) (by decide)
    subst hout
    cases hb : (wb ++ data).isEmpty with
    | true =>
      simp_all [queue_data_for_send_watched]
      subst hq
      simp [flag_matches_mask]
    | false =>
      cases snd with
      | error => simp_all [queue_data_for_send_watched]
      | would_block =>
        cases mod_ok <;> simp_all [queue_data_for_send_watched]
        subst hq
        simp [flag_matches_mask, modify_descriptor, EPOLLIN_OUT_ET]
      | sent k =>
        cases hk : ((wb ++ data).drop k).isEmpty with
        | true =>
          simp_all [queue_data_for_send_watched]
          subst hq
          simp [flag_matches_mask]
        | false =>
          cases mod_ok <;> simp_all [queue_data_for_send_watched]
          subst hq
          simp [flag_matches_mask, modify_descriptor, EPOLLIN_OUT_ET]

/-- A write event keeps the flag in step with the installed mask when
`modify_descriptor` succeeds. -/
theorem write_keeps_mask {w w2 : watched_connection} {snd : send_outcome}
    (h : flag_matches_mask w)
    (hq : handle_client_write w snd true = some w2) :
    flag_matches_mask w2 := by
  obtain ⟨⟨ip, rb, wb, reg⟩, ⟨ein, eout, eet⟩⟩ := w
  simp only [flag_matches_mask] at h
  unfold handle_client_write at hq
  simp only at hq
  split at hq
  · split at hq
    · cases hq
      simp [flag_matches_mask, modify_descriptor, EPOLLIN_ET]
    · cases hq
      simpa [flag_matches_mask] using h
  · cases snd with
    | error => cases hq
    | would_block =>
      cases hq
      simpa [flag_matches_mask] using h
    | sent k =>
      simp only at hq
      split at hq
      · cases hq
        simp [flag_matches_mask, modify_descriptor, EPOLLIN_ET]
      · cases hq
        simpa [flag_matches_mask] using h

/-- The search by id succeeds exactly when some stored message has the id. -/
theorem find_if_id_isSome_iff (msgs : List message) (n : Nat) :
    (∃ i, find_if_id msgs n = some i) ↔ n ∈ msgs.map (fun m => m.id) := by
  constructor
  · rintro ⟨i, hi⟩
    by_contra hn
    have : ∀ m ∈ msgs, m.id ≠ n := fun m hm e => hn (List.mem_map.mpr ⟨m, hm, e⟩)
    rw [find_if_id_none this] at hi
    cases hi
  · intro h
    obtain ⟨m, hm, e⟩ := List.mem_map.mp h
    obtain ⟨pre, m2, post, _, _, _, hf, _⟩ := find_if_id_some ⟨m, hm, e⟩
    exact ⟨_, hf⟩

/-- From a fresh server and with fewer than `2 ^ 64` successful posts, the
counter is the number of messages and the ids are `0, 1, 2, ...` in order. -/
theorem fresh_store_shape (cmds : List (List Char × List Char))
    (h : successful_posts cmds < 2 ^ 64) :
    (dispatch_all fresh_server cmds).1.messages.map (fun m => m.id)
      = List.range (successful_posts cmds) ∧
    (dispatch_all fresh_server cmds).1.messages.length = successful_posts cmds ∧
    (dispatch_all fresh_server cmds).1.next_message_id = successful_posts cmds := by
  have hids := dispatch_all_ids fresh_server cmds
    (by simp only [fresh_server, Nat.zero_add]; exact Nat.le_of_lt h)
  have hnext := dispatch_all_next fresh_server cmds (by decide)
  rw [show fresh_server.next_message_id = 0 from rfl, Nat.zero_add] at hnext
  rw [show fresh_server.next_message_id = 0 from rfl,
    show fresh_server.messages = [] from rfl, List.map_nil, List.nil_append,
    ← List.range_eq_range'] at hids
  refine ⟨hids, ?_, ?_⟩
  · have := congrArg List.length hids
    simpa using this
  · rw [hnext]
    exact Nat.mod_eq_of_lt h

/-- The digit characters of the first ten values are decimal digits. -/
theorem digitChar_isdigit : ∀ k, k < 10 → isdigit (Nat.digitChar k) = true := by
  decide

/-- The decimal rendering loop produces digits only. -/
theorem toDigitsCore_isdigit (fuel n : Nat) (ds : List Char)
    (h : ∀ c ∈ ds, isdigit c = true) :
    ∀ c ∈ Nat.toDigitsCore 10 fuel n ds, isdigit c = true := by
  induction fuel generalizing n ds with
  | zero => simpa [Nat.toDigitsCore] using h
  | succ f ih =>
    have hd : isdigit (Nat.digitChar (n % 10)) = true :=
      digitChar_isdigit _ (Nat.mod_lt _ (by decide))
    have hcons : ∀ c ∈ Nat.digitChar (n % 10) :: ds, isdigit c = true := by
      intro c hc
      rcases List.mem_cons.mp hc with rfl | hc2
      · exact hd
      · exact h c hc2
    unfold Nat.toDigitsCore
    simp only
    split
    · exact hcons
    · exact ih _ _ hcons

/-- A decimal rendering holds digits only. -/
theorem to_string_isdigit (n : Nat) : ∀ c ∈ to_string n, isdigit c = true :=
  toDigitsCore_isdigit _ _ [] (by simp)

/-- A decimal rendering holds no newline. -/
theorem to_string_no_newline (n : Nat) : '\n' ∉ to_string n := by
  intro h
  have := to_string_isdigit n _ h
  revert this
  decide

/-- An address string holds no newline. -/
theorem ip_string_no_newline {s : List Char} (h : is_ip_string s) : '\n' ∉ s := by
  rcases h with rfl | ⟨raw, rfl⟩
  · decide
  · have h1 := to_string_no_newline (raw / 2 ^ 24 % 256)
    have h2 := to_string_no_newline (raw / 2 ^ 16 % 256)
    have h3 := to_string_no_newline (raw / 2 ^ 8 % 256)
    have h4 := to_string_no_newline (raw % 256)
    simp only [dotted_decimal, List.mem_append, not_or]
    refine ⟨⟨⟨⟨⟨⟨h1, by decide⟩, h2⟩, by decide⟩, h3⟩, by decide⟩, h4⟩

/-- The position found by the forward search holds a character outside the set. -/
theorem find_first_not_of_some {str set : List Char} {i : Nat}
    (h : find_first_not_of str set = some i) :
    ∃ c, str[i]? = some c ∧ c ∉ set := by
  induction str generalizing i with
  | nil => simp [find_first_not_of] at h
  | cons d ds ih =>
    by_cases hd : d ∈ set
    · have hc : set.contains d = true := by simpa using hd
      simp only [find_first_not_of, hc, if_true] at h
      cases hf : find_first_not_of ds set with
      | none => simp [hf] at h
      | some j =>
        simp [hf] at h
        subst h
        obtain ⟨c, hc1, hc2⟩ := ih hf
        exact ⟨c, by simpa using hc1, hc2⟩
    · simp [find_first_not_of, hd] at h
      subst h
      exact ⟨d, by simp, hd⟩

/-- The position found by the backward search holds a character outside the set. -/
theorem find_last_not_of_some {str set : List Char} {i : Nat}
    (h : find_last_not_of str set = some i) :
    ∃ c, str[i]? = some c ∧ c ∉ set := by
  induction str generalizing i with
  | nil => simp [find_last_not_of] at h
  | cons d ds ih =>
    cases hl : find_last_not_of ds set with
    | some j =>
      simp [find_last_not_of, hl] at h
      subst h
      obtain ⟨c, hc1, hc2⟩ := ih hl
      exact ⟨c, by simpa using hc1, hc2⟩
    | none =>
      by_cases hd : d ∈ set
      · simp [find_last_not_of, hl, hd] at h
      · simp [find_last_not_of, hl, hd] at h
        subst h
        exact ⟨d, by simp, hd⟩

/-- The last of the first `k + 1` elements is the element at position `k`. -/
theorem getLast_take_succ {l : List Char} {k : Nat} {c : Char} (h : l[k]? = some c) :
    (l.take (k + 1)).getLast? = some c := by
  rw [List.take_succ, h]
  simp

/-- Trimming adds no character. -/
theorem trim_subset (str : List Char) : ∀ c ∈ trim str, c ∈ str := by
  intro c hc
  unfold trim at hc
  split at hc
  · cases hc
  · split at hc
    · exact List.mem_of_mem_drop (List.mem_of_mem_take hc)
    · exact List.mem_of_mem_drop (List.mem_of_mem_take hc)

/-- A trimmed string does not end with a stripped character. -/
theorem trim_last_not_space (str : List Char) (c : Char)
    (h : (trim str).getLast? = some c) : c ∉ trim_set := by
  unfold trim at h
  split at h
  · cases h
  · rename_i first hf
    split at h
    · rename_i hl
      have := find_first_not_of_eq_none.mpr (find_last_not_of_eq_none.mp hl)
      rw [this] at hf
      cases hf
    · rename_i last hl
      obtain ⟨c1, hc1, hn1⟩ := find_first_not_of_some hf
      obtain ⟨c2, hc2, hn2⟩ := find_last_not_of_some hl
      by_cases hle : first ≤ last
      · have hidx : (str.drop first)[last - first]? = some c2 := by
          rw [List.getElem?_drop]
          have : first + (last - first) = last := by omega
          rw [this]
          exact hc2
        rw [substr, getLast_take_succ hidx] at h
        cases h
        exact hn2
      · have hz : last - first = 0 := by omega
        have hidx : (str.drop first)[last - first]? = some c1 := by
          rw [List.getElem?_drop, hz]
          exact hc1
        rw [substr, getLast_take_succ hidx] at h
        cases h
        exact hn1

/-- A complete line holds no newline. -/
theorem split_lines_lines_no_newline (buffer : List Char) :
    ∀ l ∈ (split_lines buffer).1, '\n' ∉ l := by
  induction buffer with
  | nil => simp [split_lines]
  | cons c cs ih =>
    by_cases hc : c = '\n'
    · intro l hl
      simp only [split_lines, hc, if_true, List.mem_cons] at hl
      rcases hl with rfl | hl
      · simp
      · exact ih l hl
    · intro l hl
      simp only [split_lines, hc, if_false] at hl
      cases h1 : (split_lines cs).1 with
      | nil => simp [h1] at hl
      | cons l0 ls =>
        simp only [h1, List.mem_cons] at hl
        have hl0 : '\n' ∉ l0 := ih l0 (by simp [h1])
        rcases hl with rfl | hl
        · intro hm
          rcases List.mem_cons.mp hm with e | hm2
          · exact hc e.symm
          · exact hl0 hm2
        · exact ih l (by simp [h1, hl])

/-- The command lines of a byte string are dispatched lines. -/
theorem command_lines_dispatched (buffer : List Char) :
    ∀ l ∈ command_lines buffer, is_dispatched_line l := by
  intro l hl
  simp only [command_lines, List.mem_filter, List.mem_map] at hl
  obtain ⟨⟨raw, hraw, rfl⟩, hne⟩ := hl
  exact ⟨by simpa using hne, raw, split_lines_lines_no_newline buffer raw hraw, rfl⟩

/-- Assigning a reaction without newline keeps the stored messages well formed. -/
theorem assign_reaction_ok (msgs : List message) (i : Nat) (C : List Char)
    (hC : '\n' ∉ C) (h : ∀ m ∈ msgs, message_ok m) :
    ∀ m ∈ assign_reaction msgs i C, message_ok m := by
  induction msgs generalizing i with
  | nil => simp [assign_reaction]
  | cons a as ih =>
    have ha := h a (List.mem_cons_self _ _)
    have has : ∀ m ∈ as, message_ok m := fun m hm => h m (List.mem_cons_of_mem _ hm)
    cases i with
    | zero =>
      intro m hm
      simp only [assign_reaction, List.mem_cons] at hm
      rcases hm with rfl | hm
      · exact ⟨ha.1, ha.2.1, ha.2.2.1, hC⟩
      · exact has m hm
    | succ j =>
      intro m hm
      simp only [assign_reaction, List.mem_cons] at hm
      rcases hm with rfl | hm
      · exact ha
      · exact ih j has m hm

/-- A line that is not a successful `POST` leaves the messages or assigns a reaction to one. -/
theorem not_post_messages {command_line : List Char} (srv : server) (ip : List Char)
    (h : is_successful_post command_line = false) :
    (command_response srv ip command_line).1.messages = srv.messages ∨
    ∃ i C, (C = "HAPPY".toList ∨ C = "SAD".toList) ∧
      (command_response srv ip command_line).1.messages = assign_reaction srv.messages i C := by
  unfold command_response
  simp only
  split
  · rename_i htok
    split
    · rename_i hpre
      have hs : is_successful_post command_line = true := by
        rw [is_successful_post, htok, hpre]
        rfl
      rw [h] at hs
      cases hs
    · exact Or.inl rfl
  · split
    · split <;> exact Or.inl rfl
    · split
      · rename_i hC
        split
        · exact Or.inl rfl
        · split
          · split
            · exact Or.inr ⟨_, _, hC, rfl⟩
            · exact Or.inl rfl
          · exact Or.inl rfl
      · split <;> exact Or.inl rfl

/-- A dispatched line keeps the stored messages well formed. -/
theorem command_response_keeps_ok (srv : server) (ip line : List Char)
    (hip : '\n' ∉ ip) (hline : is_dispatched_line line)
    (hinv : ∀ m ∈ srv.messages, message_ok m) :
    ∀ m ∈ (command_response srv ip line).1.messages, message_ok m := by
  cases hp : is_successful_post line with
  | true =>
    rw [post_response srv ip hp]
    intro m hm
    simp only [List.mem_append, List.mem_singleton] at hm
    rcases hm with hm | rfl
    · exact hinv m hm
    · obtain ⟨hne, raw, hraw, hl⟩ := hline
      simp only [is_successful_post, Bool.and_eq_true, decide_eq_true_eq] at hp
      obtain ⟨rest, hrest⟩ := List.isPrefixOf_iff_prefix.mp hp.2
      have hdrop : line.drop 5 = rest := by
        rw [← hrest]
        simp
      refine ⟨?_, ?_, hip, by simp⟩
      · simp only [hdrop]
        intro hnil
        rw [hnil] at hrest
        have hlast : (trim raw).getLast? = some ' ' := by
          rw [← hl, ← hrest]
          rfl
        exact trim_last_not_space raw ' ' hlast (by decide)
      · simp only
        intro hm
        have h1 : '\n' ∈ line := List.mem_of_mem_drop hm
        rw [hl] at h1
        exact hraw (trim_subset raw _ h1)
  | false =>
    rcases not_post_messages srv ip hp with he | ⟨i, C, hC, he⟩
    · rw [he]
      exact hinv
    · rw [he]
      refine assign_reaction_ok _ _ _ ?_ hinv
      rcases hC with rfl | rfl <;> decide

/-- Dispatched lines keep the stored messages well formed. -/
theorem dispatch_all_keeps_ok (srv : server) (cmds : List (List Char × List Char))
    (hcmds : ∀ c ∈ cmds, is_ip_string c.1 ∧ is_dispatched_line c.2)
    (hinv : ∀ m ∈ srv.messages, message_ok m) :
    ∀ m ∈ (dispatch_all srv cmds).1.messages, message_ok m := by
  induction cmds generalizing srv with
  | nil => simpa [dispatch_all] using hinv
  | cons c cs ih =>
    have hc := hcmds c (List.mem_cons_self _ _)
    simp only [dispatch_all]
    exact ih _ (fun x hx => hcmds x (List.mem_cons_of_mem _ hx))
      (command_response_keeps_ok srv c.1 c.2 (ip_string_no_newline hc.1) hc.2 hinv)

/-- A listing line is its body followed by a newline. -/
theorem format_message_body (m : message) :
    format_message m = listing_body m ++ ['\n'] := by
  rw [format_message_eq]
  simp [listing_body]

/-- The body of the listing line of a well formed message holds no newline. -/
theorem listing_body_no_newline {m : message} (h : message_ok m) :
    '\n' ∉ listing_body m := by
  have hid := to_string_no_newline m.id
  obtain ⟨_, h2, h3, h4⟩ := h
  simp only [listing_body, List.mem_append, not_or]
  exact ⟨⟨⟨⟨⟨⟨⟨⟨by decide, hid⟩, by decide⟩, h3⟩, by decide⟩, h4⟩, by decide⟩, h2⟩, by decide⟩

/-- A listing of well formed messages holds one newline per message. -/
theorem listing_newline_count (msgs : List message) (h : ∀ m ∈ msgs, message_ok m) :
    ((msgs.map (fun m => listing_body m ++ ['\n'])).flatten).count '\n' = msgs.length := by
  induction msgs with
  | nil => rfl
  | cons a as ih =>
    have ha := listing_body_no_newline (h a (List.mem_cons_self _ _))
    have := ih (fun m hm => h m (List.mem_cons_of_mem _ hm))
    simp only [List.map_cons, List.flatten_cons, List.count_append, this, List.length_cons]
    rw [List.count_eq_zero_of_not_mem ha]
    simp
    omega

/-! ## Buffered reads -/

/-- C11: for every store, connection and pair of chunks `a`, `b`: appending `a`
to the read buffer and running the line loop, then appending `b` and running it
again, ends in the same state as appending `a ++ b` and running the loop once,
provided the connection is not closed: the same dispatched lines, store, bytes
accepted by `send`, write buffer and leftover read buffer; and then the first
of the two runs did not close the connection either.  The single run is what
`handle_client_read` does when `recv` delivers `a ++ b` at once, and also when
it delivers `a` and then `b` in the same drain. -/
theorem buffering_is_transparent (env : Nat → send_outcome × Bool) (srv : server)
    (client : client_connection) (a b : List Char)
    (hopen : (handle_lines env (append_chunk (start_state srv client) (a ++ b))).closed
      = false) :
    handle_lines env
        (append_chunk (handle_lines env (append_chunk (start_state srv client) a)) b)
      = handle_lines env (append_chunk (start_state srv client) (a ++ b)) ∧
    (handle_lines env (append_chunk (start_state srv client) a)).closed = false ∧
    handle_client_read env srv client [a ++ b] recv_end.would_block
      = handle_lines env (append_chunk (start_state srv client) (a ++ b)) ∧
    handle_client_read env srv client [a, b] recv_end.would_block
      = handle_lines env (append_chunk (start_state srv client) (a ++ b)) := by
  have hassoc : append_chunk (append_chunk (start_state srv client) a) b
      = append_chunk (start_state srv client) (a ++ b) := by
    simp [append_chunk]
  have heq : handle_lines env
        (append_chunk (handle_lines env (append_chunk (start_state srv client) a)) b)
      = handle_lines env (append_chunk (start_state srv client) (a ++ b)) := by
    rw [handle_lines_append env _ _ b (Nat.le_refl _), hassoc]
  refine ⟨heq, ?_, ?_, ?_⟩
  · cases hc : (handle_lines env (append_chunk (start_state srv client) a)).closed with
    | false => rfl
    | true =>
      have hmono := (handle_lines_facts env _
        (append_chunk (handle_lines env (append_chunk (start_state srv client) a)) b)
        (Nat.le_refl _)).2.2.2.2.1 hc
      rw [heq, hopen] at hmono
      cases hmono
  · simp [handle_client_read, drain_recv, append_chunk, start_state]
  · simp [handle_client_read, drain_recv, append_chunk, start_state]

/-- C11 at the chunks `PO` and `ST hi` with its newline, on a fresh server:
both ways dispatch the one line `POST hi`. -/
theorem buffering_is_transparent_witness :
    (handle_lines quiet_env
      (append_chunk (start_state fresh_server sample_client)
        ("PO".toList ++ "ST hi\n".toList))).closed = false ∧
    handle_lines quiet_env
        (append_chunk (handle_lines quiet_env
          (append_chunk (start_state fresh_server sample_client) "PO".toList))
          "ST hi\n".toList)
      = handle_lines quiet_env
          (append_chunk (start_state fresh_server sample_client)
            ("PO".toList ++ "ST hi\n".toList)) ∧
    (handle_lines quiet_env
      (append_chunk (start_state fresh_server sample_client)
        ("PO".toList ++ "ST hi\n".toList))).dispatched = ["POST hi".toList] :=
  ⟨by decide,
   (buffering_is_transparent quiet_env fresh_server sample_client "PO".toList
     "ST hi\n".toList (by decide)).1,
   by decide⟩

/-- C19: when the drain loop of `handle_client_read` ends with a read of zero
bytes or with an error other than would-block, whatever was received before,
the connection is closed, no line is dispatched, and the store is as it was;
the bytes received were appended to the read buffer and stay unread.  A drain
that ends with would-block runs the line loop on the drained buffer. -/
theorem failed_drain_dispatches_nothing (env : Nat → send_outcome × Bool) (srv : server)
    (client : client_connection) (chunks : List (List Char)) (last : recv_end)
    (hlast : last = recv_end.peer_shutdown ∨ last = recv_end.error) :
    (handle_client_read env srv client chunks last).closed = true ∧
    (handle_client_read env srv client chunks last).dispatched = [] ∧
    (handle_client_read env srv client chunks last).srv = srv ∧
    (handle_client_read env srv client chunks last).client
      = { client with read_buffer := client.read_buffer ++ chunks.flatten } ∧
    handle_client_read env srv client chunks recv_end.would_block
      = handle_lines env (start_state srv
          { client with read_buffer := client.read_buffer ++ chunks.flatten }) := by
  rcases hlast with rfl | rfl <;>
    simp [handle_client_read, start_state, drain_recv_eq]

/-- C19 on a connection that has `POST` and a space buffered and receives `hi`
with its newline before the peer shuts down: nothing is dispatched, whereas the
same bytes followed by would-block dispatch `POST hi`. -/
theorem failed_drain_dispatches_nothing_witness :
    (recv_end.peer_shutdown = recv_end.peer_shutdown
      ∨ recv_end.peer_shutdown = recv_end.error) ∧
    (handle_client_read quiet_env fresh_server
      { sample_client with read_buffer := "POST ".toList } ["hi\n".toList]
      recv_end.peer_shutdown).closed = true ∧
    (handle_client_read quiet_env fresh_server
      { sample_client with read_buffer := "POST ".toList } ["hi\n".toList]
      recv_end.peer_shutdown).dispatched = [] ∧
    (handle_client_read quiet_env fresh_server
      { sample_client with read_buffer := "POST ".toList } ["hi\n".toList]
      recv_end.peer_shutdown).srv = fresh_server ∧
    (handle_client_read quiet_env fresh_server
      { sample_client with read_buffer := "POST ".toList } ["hi\n".toList]
      recv_end.would_block).dispatched = ["POST hi".toList] :=
  ⟨by decide,
   (failed_drain_dispatches_nothing quiet_env fresh_server
     { sample_client with read_buffer := "POST ".toList } ["hi\n".toList]
     recv_end.peer_shutdown (by decide)).1,
   (failed_drain_dispatches_nothing quiet_env fresh_server
     { sample_client with read_buffer := "POST ".toList } ["hi\n".toList]
     recv_end.peer_shutdown (by decide)).2.1,
   (failed_drain_dispatches_nothing quiet_env fresh_server
     { sample_client with read_buffer := "POST ".toList } ["hi\n".toList]
     recv_end.peer_shutdown (by decide)).2.2.1,
   by decide⟩

/-- C20 on the code: the read buffer holds the lines `POST a` and `POST b`, and
the `send` that answers the first one fails, so `queue_data_for_send` closes
the connection during the first pass.  The loop has no test for that: its
second pass takes `POST b` off the buffer and hands it to the handler, and the
store ends with two messages. -/
theorem lines_after_closure_are_dispatched :
    (line_pass failing_env (start_state fresh_server
      { sample_client with read_buffer := "POST a\nPOST b\n".toList })).map
        (fun st => (st.closed, st.dispatched, st.client.read_buffer))
      = some (true, ["POST a".toList], "POST b\n".toList) ∧
    (handle_client_read failing_env fresh_server sample_client
      ["POST a\nPOST b\n".toList] recv_end.would_block).closed = true ∧
    (handle_client_read failing_env fresh_server sample_client
      ["POST a\nPOST b\n".toList] recv_end.would_block).dispatched
      = ["POST a".toList, "POST b".toList] ∧
    (handle_client_read failing_env fresh_server sample_client
      ["POST a\nPOST b\n".toList] recv_end.would_block).srv.messages.map (fun m => m.text)
      = ["a".toList, "b".toList] := by
  decide

/-! ## Write interest -/

/-- C12: on a connection whose flag is set exactly when its write buffer is not
empty, `queue_data_for_send` (any data) and `handle_client_write`, for any
outcome of `send` and of `modify_descriptor`, leave the flag set exactly when
the write buffer is not empty whenever they return without closing; and they
do not close when `send` does not fail and `modify_descriptor` succeeds. -/
theorem write_interest_invariant (client : client_connection) (installed : epoll_events)
    (data : List Char) (snd : send_outcome) (mod_ok : Bool)
    (h : write_interest_ok client) :
    (∀ c, queue_data_for_send client data snd mod_ok = some c → write_interest_ok c) ∧
    (∀ w, handle_client_write { client := client, installed := installed } snd mod_ok
        = some w → write_interest_ok w.client) ∧
    (snd ≠ send_outcome.error → mod_ok = true →
      ∃ c, queue_data_for_send client data snd mod_ok = some c) ∧
    (snd ≠ send_outcome.error →
      ∃ w, handle_client_write { client := client, installed := installed } snd mod_ok
        = some w) := by
  refine ⟨fun c hq => queue_keeps_write_interest h hq,
    fun w hq => @write_keeps_write_interest ⟨client, installed⟩ w snd mod_ok h hq, ?_, ?_⟩
  · intro hs hm
    subst hm
    rcases queue_cases client data snd true with hn | ⟨k, reg, hq, _⟩
    · exfalso
      obtain ⟨ip, rb, wb, reg⟩ := client
      cases reg with
      | true => rw [queue_of_registered] at hn; cases hn
      | false =>
        cases hb : (wb ++ data).isEmpty with
        | true => rw [queue_of_empty _ _ _ _ _ _ hb] at hn; cases hn
        | false =>
          cases snd with
          | error => exact hs rfl
          | would_block => rw [queue_of_would_block _ _ _ _ _ hb] at hn; cases hn
          | sent k =>
            cases hk : ((wb ++ data).drop k).isEmpty with
            | true => rw [queue_of_sent_all _ _ _ _ _ _ hb hk] at hn; cases hn
            | false => rw [queue_of_sent_part _ _ _ _ _ _ hb hk] at hn; cases hn
    · exact ⟨_, hq⟩
  · intro hs
    unfold handle_client_write
    simp only
    split
    · split <;> exact ⟨_, rfl⟩
    · cases snd with
      | error => exact absurd rfl hs
      | would_block => exact ⟨_, rfl⟩
      | sent k =>
        simp only
        split <;> exact ⟨_, rfl⟩

/-- C12 on a connection with nothing pending that queues `OK` while `send`
takes one byte: the byte left over goes with the flag set. -/
theorem write_interest_invariant_witness :
    write_interest_ok sample_client ∧
    queue_data_for_send sample_client "OK".toList (send_outcome.sent 1) true
      = some { sample_client with write_buffer := "K".toList, writing_registered := true } ∧
    write_interest_ok
      { sample_client with write_buffer := "K".toList, writing_registered := true } :=
  ⟨by decide, by decide,
   (write_interest_invariant sample_client EPOLLIN_ET "OK".toList (send_outcome.sent 1)
     true (by decide)).1 _ (by decide)⟩

/-- C13 on the code: a connection whose flag and mask agree (both have write
interest) gets a write event; `send` takes the two pending bytes and the
`modify_descriptor` call that should remove `EPOLLOUT` fails.  The source
clears the flag without looking at the result, so afterwards the connection is
still open, the flag is false and the installed mask still contains
`EPOLLOUT`: the two no longer agree. -/
theorem failed_downgrade_breaks_mask_agreement :
    flag_matches_mask sample_watched ∧
    handle_client_write sample_watched (send_outcome.sent 2) false
      = some { client := { sample_client with write_buffer := [],
                                              writing_registered := false },
               installed := EPOLLIN_OUT_ET } ∧
    ¬ flag_matches_mask
        { client := { sample_client with write_buffer := [], writing_registered := false },
          installed := EPOLLIN_OUT_ET } := by
  decide

/-! ## Accept loop -/

/-- C14 as worded fails when `accept` fails before the first would-block: on
the outcomes error, descriptor 5 (every set-up step succeeding), would-block,
the loop stops at the error and the table stays empty, although descriptor 5
comes before the first would-block and would be set up. -/
theorem accept_error_stops_loop_counterexample :
    accept_new_connections []
      [accept_outcome.error,
       accept_outcome.descriptor 5 true (some "10.0.0.1".toList) true true,
       accept_outcome.would_block] = some [] ∧
    set_up_connection (accept_outcome.descriptor 5 true (some "10.0.0.1".toList) true true)
      = some (5, new_connection "10.0.0.1".toList) := by
  decide

/-- C14 (amended): the accept loop goes on until `accept` would block or fails
with another error.  When every pass before that point got a descriptor (and
`client_connection::make` did not fail on it), the table after the call is the
table before it with every connection that passed all set-up steps emplaced,
in order: each of them has its descriptor in the table, also when an earlier
descriptor failed a set-up step, and no earlier entry is lost. -/
theorem accept_until_first_failure (table : List (Nat × client_connection))
    (pre rest : List accept_outcome) (stop : accept_outcome)
    (hpre : ∀ o ∈ pre, accepted_without_throw o = true)
    (hstop : stop = accept_outcome.would_block ∨ stop = accept_outcome.error) :
    accept_new_connections table (pre ++ stop :: rest)
      = some (emplace_all table (pre.filterMap set_up_connection)) ∧
    (∀ o ∈ pre, ∀ p, set_up_connection o = some p →
      p.1 ∈ (emplace_all table (pre.filterMap set_up_connection)).map (fun e => e.1)) ∧
    (∀ k ∈ table.map (fun e => e.1),
      k ∈ (emplace_all table (pre.filterMap set_up_connection)).map (fun e => e.1)) := by
  refine ⟨?_, ?_, fun k hk => emplace_all_keeps_keys _ _ k hk⟩
  · rw [accept_passes_emplace table pre (stop :: rest) hpre]
    rcases hstop with rfl | rfl <;> rfl
  · intro o ho p hp
    exact emplace_all_has_keys _ table p (List.mem_filterMap.mpr ⟨o, ho, hp⟩)

/-- C14 (amended) on the outcomes: a descriptor that cannot be registered, a
descriptor that is set up, an `accept` error, and one more descriptor that is
never reached. -/
theorem accept_until_first_failure_witness :
    (∀ o ∈ [accept_outcome.descriptor 4 true (some "10.0.0.9".toList) true false,
            accept_outcome.descriptor 5 true (some "10.0.0.1".toList) true true],
      accepted_without_throw o = true) ∧
    (accept_outcome.error = accept_outcome.would_block
      ∨ accept_outcome.error = accept_outcome.error) ∧
    accept_new_connections []
      ([accept_outcome.descriptor 4 true (some "10.0.0.9".toList) true false,
        accept_outcome.descriptor 5 true (some "10.0.0.1".toList) true true]
        ++ accept_outcome.error
          :: [accept_outcome.descriptor 6 true (some "10.0.0.2".toList) true true])
      = some [(5, new_connection "10.0.0.1".toList)] :=
  ⟨by decide, by decide,
   (accept_until_first_failure []
     [accept_outcome.descriptor 4 true (some "10.0.0.9".toList) true false,
      accept_outcome.descriptor 5 true (some "10.0.0.1".toList) true true]
     [accept_outcome.descriptor 6 true (some "10.0.0.2".toList) true true]
     accept_outcome.error (by decide) (by decide)).1⟩

/-! ## Responses -/

/-- C15: for every store and every non-empty command line that does not start
with whitespace (whatever it ends with), the handler computes one response,
which is not empty and ends with a newline, and queues exactly that
response. -/
theorem one_newline_terminated_response (srv : server) (client : client_connection)
    (command_line : List Char) (snd : send_outcome) (mod_ok : Bool)
    (hne : command_line ≠ [])
    (hhead : ∀ c, command_line.head? = some c → isspace c = false) :
    ∃ srv2 resp, resp ≠ [] ∧ resp.getLast? = some '\n' ∧
      command_response srv client.ip_string command_line = (srv2, resp) ∧
      process_client_command srv client command_line snd mod_ok
        = (srv2, queue_data_for_send client resp snd mod_ok) := by
  have hend := command_response_ends_newline srv client.ip_string command_line
    (first_token_ne_nil hne hhead)
  have hresp : (command_response srv client.ip_string command_line).2 ≠ [] := by
    intro h
    rw [h] at hend
    cases hend
  exact ⟨_, _, hresp, hend, rfl, process_client_command_of_response snd mod_ok rfl hresp⟩

/-- C15 on the line `GET` and the two message store. -/
theorem one_newline_terminated_response_witness :
    "GET".toList ≠ [] ∧
    (∀ c, "GET".toList.head? = some c → isspace c = false) ∧
    ∃ srv2 resp, resp ≠ [] ∧ resp.getLast? = some '\n' ∧
      command_response sample_server sample_client.ip_string "GET".toList = (srv2, resp) ∧
      process_client_command sample_server sample_client "GET".toList
          send_outcome.would_block true
        = (srv2, queue_data_for_send sample_client resp send_outcome.would_block true) :=
  ⟨by decide, fun c h => by cases h; rfl,
   one_newline_terminated_response sample_server sample_client "GET".toList
     send_outcome.would_block true (by decide) (fun c h => by cases h; rfl)⟩

/-- C16: after the line loop has run on a read buffer and has not closed the
connection, the lines answered are the command lines of the buffer in order,
the store is the one they lead to, and the bytes accepted by `send` followed
by the write buffer are the write buffer before the loop followed by the
responses to those lines, each computed on the store left by the lines before
it; `queue_data_for_send` and `handle_client_write` alone take from the head
of the write buffer exactly the bytes `send` accepted; and the loop has run to
its end: no newline is left in the read buffer. -/
theorem output_is_conserved (env : Nat → send_outcome × Bool) (srv : server)
    (client : client_connection)
    (hopen : (handle_lines env (start_state srv client)).closed = false) :
    (handle_lines env (start_state srv client)).dispatched
      = command_lines client.read_buffer ∧
    (handle_lines env (start_state srv client)).srv
      = store_after srv client.ip_string (command_lines client.read_buffer) ∧
    (handle_lines env (start_state srv client)).accepted
        ++ (handle_lines env (start_state srv client)).client.write_buffer
      = client.write_buffer
        ++ responses_to srv client.ip_string (command_lines client.read_buffer) ∧
    (∀ (s : server) (l : List Char) (ls : List (List Char)),
      responses_to s client.ip_string (l :: ls)
        = (command_response s client.ip_string l).2
          ++ responses_to (command_response s client.ip_string l).1 client.ip_string ls) ∧
    (∀ (c c2 : client_connection) (data : List Char) (snd : send_outcome) (mod_ok : Bool),
      queue_data_for_send c data snd mod_ok = some c2 →
      bytes_sent_by_queue c data snd ++ c2.write_buffer = c.write_buffer ++ data) ∧
    (∀ (w w2 : watched_connection) (snd : send_outcome) (mod_ok : Bool),
      handle_client_write w snd mod_ok = some w2 →
      bytes_sent_by_write w.client snd ++ w2.client.write_buffer
        = w.client.write_buffer) ∧
    '\n' ∉ (handle_lines env (start_state srv client)).client.read_buffer := by
  obtain ⟨h1, _, h3, h4, _, h6⟩ :=
    handle_lines_facts env _ (start_state srv client) (Nat.le_refl _)
  refine ⟨by simpa [start_state] using h3, by simpa [start_state] using h4, ?_, ?_,
    fun c c2 data snd mod_ok hq => queue_conserves_bytes hq,
    fun w w2 snd mod_ok hq => write_conserves_bytes hq, ?_⟩
  · simpa [start_state] using h6 hopen
  · intro s l ls
    simp [responses_to, dispatch_all]
  · rw [h1]
    exact split_lines_rest_no_newline _

/-- C16 on a buffer holding `POST hi`, a blank line, `GET` and the start of a
third line, where every `send` takes three bytes. -/
theorem output_is_conserved_witness :
    (handle_lines three_byte_env (start_state fresh_server
      { sample_client with read_buffer := "POST hi\n \nGET\nHAP".toList })).closed = false ∧
    (handle_lines three_byte_env (start_state fresh_server
      { sample_client with read_buffer := "POST hi\n \nGET\nHAP".toList })).dispatched
      = ["POST hi".toList, "GET".toList] ∧
    (handle_lines three_byte_env (start_state fresh_server
      { sample_client with read_buffer := "POST hi\n \nGET\nHAP".toList })).accepted
      = "OK:".toList ∧
    (handle_lines three_byte_env (start_state fresh_server
      { sample_client with read_buffer := "POST hi\n \nGET\nHAP".toList })).accepted
        ++ (handle_lines three_byte_env (start_state fresh_server
      { sample_client with read_buffer := "POST hi\n \nGET\nHAP".toList })).client.write_buffer
      = ({ sample_client with read_buffer := "POST hi\n \nGET\nHAP".toList }).write_buffer
        ++ responses_to fresh_server
            ({ sample_client with read_buffer := "POST hi\n \nGET\nHAP".toList }).ip_string
            (command_lines
              ({ sample_client with read_buffer := "POST hi\n \nGET\nHAP".toList }).read_buffer) :=
  ⟨by decide, by decide, by decide,
   (output_is_conserved three_byte_env fresh_server
     { sample_client with read_buffer := "POST hi\n \nGET\nHAP".toList } (by decide)).2.2.1⟩

/-! ## Store invariants -/

/-- C17: every line the line loop of `handle_client_read` dispatches is the
non-empty trimmed form of a text without newline; in every store reached from
the fresh one by such lines, sent from connections whose address string is one
`get_ip_string` returns, every message text is non-empty and holds no newline;
so the response to `GET` on a non-empty store is the concatenation over the
messages, in list order, of a body without newline followed by a newline,
with as many newlines as messages, and the body for message `m` starts with
`ID: ` followed by the id of `m`. -/
theorem listing_has_one_line_per_message (cmds : List (List Char × List Char))
    (hcmds : ∀ c ∈ cmds, is_ip_string c.1 ∧ is_dispatched_line c.2) :
    (∀ buffer : List Char, ∀ l ∈ command_lines buffer, is_dispatched_line l) ∧
    (∀ m ∈ (dispatch_all fresh_server cmds).1.messages, m.text ≠ [] ∧ '\n' ∉ m.text) ∧
    (∀ ip line : List Char, (extract_token line).1 = "GET".toList →
      (dispatch_all fresh_server cmds).1.messages ≠ [] →
      (command_response (dispatch_all fresh_server cmds).1 ip line).2
        = ((dispatch_all fresh_server cmds).1.messages.map
            (fun m => listing_body m ++ ['\n'])).flatten ∧
      (command_response (dispatch_all fresh_server cmds).1 ip line).2.count '\n'
        = (dispatch_all fresh_server cmds).1.messages.length) ∧
    (∀ m ∈ (dispatch_all fresh_server cmds).1.messages,
      '\n' ∉ listing_body m ∧ "ID: ".toList ++ to_string m.id <+: listing_body m) := by
  have hok := dispatch_all_keeps_ok fresh_server cmds hcmds
    (by intro m hm; cases hm)
  refine ⟨command_lines_dispatched, fun m hm => ⟨(hok m hm).1, (hok m hm).2.1⟩, ?_, ?_⟩
  · intro ip line hget hne
    have hresp : (command_response (dispatch_all fresh_server cmds).1 ip line).2
        = ((dispatch_all fresh_server cmds).1.messages.map
            (fun m => listing_body m ++ ['\n'])).flatten := by
      rw [get_response ip hget, if_neg hne]
      have hf : format_message = (fun m => listing_body m ++ ['\n']) := by
        funext m
        exact format_message_body m
      rw [hf]
    exact ⟨hresp, by rw [hresp]; exact listing_newline_count _ hok⟩
  · intro m hm
    refine ⟨listing_body_no_newline (hok m hm), ?_⟩
    unfold listing_body
    simp only [List.append_assoc]
    exact ⟨_, rfl⟩

/-- C17 on `POST hello` followed by `HAPPY 0`, both from `10.0.0.1`: the one
stored text is `hello`. -/
theorem listing_has_one_line_per_message_witness :
    (∀ c ∈ sample_commands, is_ip_string c.1 ∧ is_dispatched_line c.2) ∧
    (∀ m ∈ (dispatch_all fresh_server sample_commands).1.messages,
      m.text ≠ [] ∧ '\n' ∉ m.text) ∧
    (dispatch_all fresh_server sample_commands).1.messages.map (fun m => m.text)
      = ["hello".toList] :=
  have hcmds : ∀ c ∈ sample_commands, is_ip_string c.1 ∧ is_dispatched_line c.2 := by
    intro c hc
    simp only [sample_commands, List.mem_cons, List.mem_singleton, List.not_mem_nil,
      or_false] at hc
    rcases hc with rfl | rfl
    · exact ⟨Or.inr ⟨167772161, by decide⟩, by decide, "POST hello".toList, by decide,
        by decide⟩
    · exact ⟨Or.inr ⟨167772161, by decide⟩, by decide, "HAPPY 0".toList, by decide,
        by decide⟩
  ⟨hcmds, (listing_has_one_line_per_message sample_commands hcmds).2.1, by decide⟩

/-- C18: in every store reached from a fresh server by a sequence of commands
with fewer than `2 ^ 64` successful posts, `next_message_id` is the number of
stored messages and the message at position `i` has id `i`; hence the ids are
pairwise distinct, at most one message matches the `find_if` of `HAPPY`/`SAD`,
and a `HAPPY`/`SAD` with a well formed id `n` is answered
`OK: Reaction set for message n.` exactly when `n` is below the number of
stored messages. -/
theorem store_invariant (cmds : List (List Char × List Char))
    (hposts : successful_posts cmds < 2 ^ 64) :
    (dispatch_all fresh_server cmds).1.next_message_id
      = (dispatch_all fresh_server cmds).1.messages.length ∧
    (∀ (i : Nat) (m : message),
      (dispatch_all fresh_server cmds).1.messages[i]? = some m → m.id = i) ∧
    ((dispatch_all fresh_server cmds).1.messages.map (fun m => m.id)).Nodup ∧
    (∀ n : Nat,
      ((dispatch_all fresh_server cmds).1.messages.filter (fun m => m.id = n)).length ≤ 1) ∧
    (∀ (C ip line t : List Char),
      C = "HAPPY".toList ∨ C = "SAD".toList →
      (extract_token line).1 = C →
      (extract_token (extract_token line).2).1 = t →
      is_uintmax_decimal t = true →
      ((command_response (dispatch_all fresh_server cmds).1 ip line).2
          = "OK: Reaction set for message ".toList ++ to_string (digits_value t)
            ++ ".\n".toList
        ↔ digits_value t < (dispatch_all fresh_server cmds).1.messages.length)) := by
  obtain ⟨hids, hlen, hnext⟩ := fresh_store_shape cmds hposts
  have hnodup : ((dispatch_all fresh_server cmds).1.messages.map (fun m => m.id)).Nodup := by
    rw [hids]
    exact List.nodup_range _
  refine ⟨by rw [hnext, hlen], ?_, hnodup, ?_, ?_⟩
  · intro i m hm
    have h1 : ((dispatch_all fresh_server cmds).1.messages.map (fun m => m.id))[i]?
        = some m.id := by
      rw [List.getElem?_map, hm]
      rfl
    rw [hids] at h1
    have hlt : i < successful_posts cmds := by
      by_contra hge
      rw [List.getElem?_eq_none (by simpa using Nat.le_of_not_lt hge)] at h1
      cases h1
    rw [List.getElem?_range hlt] at h1
    cases h1
    rfl
  · intro n
    have hc := List.nodup_iff_count_le_one.mp hnodup n
    have : ((dispatch_all fresh_server cmds).1.messages.filter (fun m => m.id = n)).length
        = ((dispatch_all fresh_server cmds).1.messages.map (fun m => m.id)).count n := by
      rw [List.count, List.countP_map, List.countP_eq_length_filter]
      congr 1
    omega
  · intro C ip line t hC htok ht hdec
    subst ht
    have hmem : digits_value (extract_token (extract_token line).2).1
          < (dispatch_all fresh_server cmds).1.messages.length
        ↔ digits_value (extract_token (extract_token line).2).1
          ∈ (dispatch_all fresh_server cmds).1.messages.map (fun m => m.id) := by
      rw [hids, hlen]
      simp
    rw [hmem, ← find_if_id_isSome_iff]
    constructor
    · intro hresp
      cases hfind : find_if_id (dispatch_all fresh_server cmds).1.messages
          (digits_value (extract_token (extract_token line).2).1) with
      | some i => exact ⟨i, rfl⟩
      | none =>
        rw [reaction_response_not_found ip hC htok hdec hfind] at hresp
        simp at hresp
    · rintro ⟨i, hfind⟩
      rw [reaction_response_found ip hC htok hdec hfind]

/-- C18 on the store reached by `POST hello` and `HAPPY 0`. -/
theorem store_invariant_witness :
    successful_posts sample_commands < 2 ^ 64 ∧
    (dispatch_all fresh_server sample_commands).1.next_message_id
      = (dispatch_all fresh_server sample_commands).1.messages.length ∧
    (∀ (i : Nat) (m : message),
      (dispatch_all fresh_server sample_commands).1.messages[i]? = some m → m.id = i) :=
  ⟨by decide, (store_invariant sample_commands (by decide)).1,
   (store_invariant sample_commands (by decide)).2.1⟩

end oreore
